import Mathlib

/-!
# Festival registration portal: code generator, registry and workflow

Shallow embedding of the registration backend: the unique-code generator,
the two storage variants (in-memory maps and relational store), and the
four workflow operations exposed by the HTTP routes.  Machine numbers in
the source are JavaScript numbers used only as small counters and ids, so
they are modelled as `Nat`; JavaScript strings are modelled as `String`.
-/

namespace FestivalRegistry

/-! ## Decimal rendering (JavaScript `String(n)`) -/

/-- Decimal digit characters produced by JavaScript number-to-string
conversion. -/
def digitChar (d : Nat) : Char :=
  match d with
  | 0 => '0'
  | 1 => '1'
  | 2 => '2'
  | 3 => '3'
  | 4 => '4'
  | 5 => '5'
  | 6 => '6'
  | 7 => '7'
  | 8 => '8'
  | _ => '9'

/-- Decimal digits of `n`, most significant first.  The fuel argument only
drives the recursion; `n` units always suffice because the value shrinks
ten-fold at each step. -/
def natToDecimalAux (fuel : Nat) (n : Nat) : List Char :=
  match fuel with
  | 0 => [digitChar n]
  | fuel + 1 =>
    if n < 10 then [digitChar n]
    else natToDecimalAux fuel (n / 10) ++ [digitChar (n % 10)]

/-- Embedding of JavaScript `String(n)` for a natural number: its decimal
representation, most significant digit first. -/
def natToDecimal (n : Nat) : List Char :=
  natToDecimalAux n n

/-- Value of a decimal digit string, used to invert `natToDecimal`. -/
def decimalVal (l : List Char) : Nat :=
  l.foldl (fun acc c => 10 * acc + (c.toNat - 48)) 0

/-! ## Zero padding (JavaScript `s.padStart(3, '0')`) -/

/-- Embedding of JavaScript `s.padStart(3, '0')`: prefix with `'0'` up to
length 3 (no-op on strings already that long). -/
def padStart3 (s : List Char) : List Char :=
  List.replicate (3 - s.length) '0' ++ s

/-! ## Code generator (`generateUniqueCode` in both storage variants) -/

/-- The candidate code for one loop iteration:
`` `${teamCode}${String(counter).padStart(3, '0')}` ``. -/
def codeCandidate (teamCode : String) (counter : Nat) : String :=
  teamCode ++ String.mk (padStart3 (natToDecimal counter))

/-- The `do { code = ...; counter++ } while (existingCodes.includes(code))`
loop of `generateUniqueCode`, with explicit fuel; `existingCodes.length + 1`
iterations always suffice (proved below), so the fuel-exhausted branch is
never taken from `generateUniqueCode`. -/
def generateLoop (teamCode : String) (existingCodes : List String) :
    Nat → Nat → String
  | counter, 0 => codeCandidate teamCode counter
  | counter, fuel + 1 =>
    let code := codeCandidate teamCode counter
    if code ∈ existingCodes then generateLoop teamCode existingCodes (counter + 1) fuel
    else code

/-- `generate(teamPrefix, existingCodes)`: the unique-code generation
algorithm shared verbatim by `DatabaseStorage.generateUniqueCode` and
`MemStorage.generateUniqueCode`, applied to the snapshot of all existing
participants' codes. -/
def generate (teamPrefix : String) (existingCodes : List String) : String :=
  generateLoop teamPrefix existingCodes 1 (existingCodes.length + 1)

/-! ## Data model (`@shared/schema`) -/

/-- A row of the `teams` table / an entry of the `MemStorage` team map. -/
structure Team where
  id : Nat
  name : String
  code : String
deriving DecidableEq

/-- A row of the `participants` table. -/
structure Participant where
  id : Nat
  fullName : String
  teamId : Nat
  uniqueCode : String
  profileImage : Option String
deriving DecidableEq

/-- A row of the `programs` table. -/
structure Program where
  id : Nat
  name : String
  type : String
  participationType : String
  description : Option String
deriving DecidableEq

/-- A row of the `registrations` table. -/
structure Registration where
  id : Nat
  participantId : Nat
  programId : Nat
  registeredAt : String
deriving DecidableEq

/-- `ParticipantWithTeam = Participant & { team: Team }`. -/
structure ParticipantWithTeam where
  part : Participant
  team : Team
deriving DecidableEq

/-- `RegistrationWithDetails = Registration & { participant, program }`. -/
structure RegistrationWithDetails where
  reg : Registration
  participant : ParticipantWithTeam
  program : Program
deriving DecidableEq

/-- The store state: the four entity collections plus the id counters.
`MemStorage` keeps each collection as an insertion-ordered `Map` keyed by
the entity's own `id` together with a `current*Id` counter; the relational
store keeps the same rows with `serial` primary-key counters.  Both are
modelled as the rows in insertion order plus the counters. -/
structure State where
  teams : List Team
  participants : List Participant
  programs : List Program
  registrations : List Registration
  currentTeamId : Nat
  currentParticipantId : Nat
  currentProgramId : Nat
  currentRegistrationId : Nat
deriving DecidableEq

/-- The stats record returned by `getStats`. -/
structure Stats where
  totalRegistered : Nat
  stagePrograms : Nat
  nonStagePrograms : Nat
  totalPrograms : Nat
deriving DecidableEq

/-! ## MemStorage -/

def memGetTeams (s : State) : List Team :=
  s.teams

/-- `this.teams.get(id)`: the `Map` is keyed by `team.id`. -/
def memGetTeam (s : State) (id : Nat) : Option Team :=
  s.teams.find? (fun t => t.id = id)

def memCreateTeam (s : State) (name code : String) : State × Team :=
  let newTeam : Team := ⟨s.currentTeamId, name, code⟩
  ({ s with teams := s.teams ++ [newTeam], currentTeamId := s.currentTeamId + 1 }, newTeam)

def memGetParticipant (s : State) (id : Nat) : Option Participant :=
  s.participants.find? (fun p => p.id = id)

def memGetParticipantByCode (s : State) (code : String) : Option Participant :=
  s.participants.find? (fun p => p.uniqueCode = code)

/-- Embedding of JavaScript `s.toLowerCase()`: lower-case each character. -/
def toLowerStr (s : String) : String :=
  String.mk (s.data.map Char.toLower)

/-- `find(p => p.fullName.toLowerCase() === name.toLowerCase())`. -/
def memGetParticipantByName (s : State) (name : String) : Option Participant :=
  s.participants.find? (fun p => toLowerStr p.fullName = toLowerStr name)

def memGetParticipantWithTeam (s : State) (id : Nat) : Option ParticipantWithTeam :=
  match memGetParticipant s id with
  | none => none
  | some p =>
    match memGetTeam s p.teamId with
    | none => none
    | some t => some ⟨p, t⟩

def memCreateParticipant (s : State) (fullName : String) (teamId : Nat)
    (uniqueCode : String) (profileImage : Option String) : State × Participant :=
  let newParticipant : Participant :=
    ⟨s.currentParticipantId, fullName, teamId, uniqueCode, profileImage⟩
  ({ s with
      participants := s.participants ++ [newParticipant]
      currentParticipantId := s.currentParticipantId + 1 },
    newParticipant)

/-- Replace the single map entry keyed `id` in place.  `Map.set` on a
present key overwrites that entry and keeps its insertion position; the
map is keyed by `participant.id`, so the keyed entry is the one whose
`id` field matches. -/
def setParticipantById (l : List Participant) (id : Nat) (p : Participant) :
    List Participant :=
  l.map (fun q => if q.id = id then p else q)

def memUpdateParticipantImage (s : State) (id : Nat) (imageUrl : String) :
    State × Option Participant :=
  match memGetParticipant s id with
  | none => (s, none)
  | some p =>
    let updated : Participant := { p with profileImage := some imageUrl }
    ({ s with participants := setParticipantById s.participants id updated }, some updated)

def memGetPrograms (s : State) : List Program :=
  s.programs

def memGetProgram (s : State) (id : Nat) : Option Program :=
  s.programs.find? (fun g => g.id = id)

/-- `participationType` is optional; a supplied value must match too. -/
def memGetProgramsByType (s : State) (type : String) (participationType : Option String) :
    List Program :=
  s.programs.filter (fun g =>
    if g.type ≠ type then false
    else
      match participationType with
      | some pt => g.participationType = pt
      | none => true)

def memCreateProgram (s : State) (name type participationType : String)
    (description : Option String) : State × Program :=
  let newProgram : Program := ⟨s.currentProgramId, name, type, participationType, description⟩
  ({ s with
      programs := s.programs ++ [newProgram]
      currentProgramId := s.currentProgramId + 1 },
    newProgram)

def memGetRegistrations (s : State) : List Registration :=
  s.registrations

def memGetRegistrationsByParticipant (s : State) (participantId : Nat) : List Registration :=
  s.registrations.filter (fun r => r.participantId = participantId)

/-- The body of both `getRegistrations*WithDetails` loops: push a detailed
row when the participant (with team) and the program both resolve, skip
the registration otherwise. -/
def memDetailsLoop (s : State) : List Registration → List RegistrationWithDetails
  | [] => []
  | r :: rest =>
    match memGetParticipantWithTeam s r.participantId, memGetProgram s r.programId with
    | some pwt, some g => ⟨r, pwt, g⟩ :: memDetailsLoop s rest
    | _, _ => memDetailsLoop s rest

def memGetRegistrationsWithDetails (s : State) : List RegistrationWithDetails :=
  memDetailsLoop s s.registrations

def memGetRegistrationsByParticipantWithDetails (s : State) (participantId : Nat) :
    List RegistrationWithDetails :=
  memDetailsLoop s (memGetRegistrationsByParticipant s participantId)

/-- `createRegistration` stamps `registeredAt` from the ambient clock
(`new Date().toISOString()`), passed here explicitly as `now`. -/
def memCreateRegistration (s : State) (participantId programId : Nat) (now : String) :
    State × Registration :=
  let newRegistration : Registration := ⟨s.currentRegistrationId, participantId, programId, now⟩
  ({ s with
      registrations := s.registrations ++ [newRegistration]
      currentRegistrationId := s.currentRegistrationId + 1 },
    newRegistration)

/-- `this.registrations.delete(id)` returns whether the key was present. -/
def memDeleteRegistration (s : State) (id : Nat) : State × Bool :=
  ({ s with registrations := s.registrations.filter (fun r => r.id ≠ id) },
    s.registrations.any (fun r => r.id = id))

def memGetStats (s : State) : Stats :=
  { totalRegistered := (s.registrations.map (fun r => r.participantId)).dedup.length
    stagePrograms := s.registrations.countP
      (fun r => (memGetProgram s r.programId).map Program.type = some "stage")
    nonStagePrograms := s.registrations.countP
      (fun r => (memGetProgram s r.programId).map Program.type = some "non-stage")
    totalPrograms := s.registrations.length }

def memGenerateUniqueCode (s : State) (teamCode : String) : String :=
  generate teamCode (s.participants.map (fun p => p.uniqueCode))

/-! ## DatabaseStorage

The relational variant issues SQL through the ORM.  `select ... where
eq(col, v)` filters the rows in table order; destructuring the first
element (`const [row] = ...`) takes the head.  `leftJoin` keeps every left
row, pairing it with each matching right row, or with `NULL` when no right
row matches (a `NULL` join key matches nothing). -/

/-- The rows a single left row contributes to a left join. -/
def joinExpand {α β : Type} (right : List β) (lkey : α → Option Nat) (rkey : β → Nat)
    (a : α) : List (α × Option β) :=
  match lkey a with
  | none => [(a, none)]
  | some k =>
    match right.filter (fun b => rkey b = k) with
    | [] => [(a, none)]
    | b :: bs => (b :: bs).map (fun b => (a, some b))

def leftJoin {α β : Type} (left : List α) (right : List β)
    (lkey : α → Option Nat) (rkey : β → Nat) : List (α × Option β) :=
  left.flatMap (joinExpand right lkey rkey)

def dbGetTeams (s : State) : List Team :=
  s.teams

def dbGetTeam (s : State) (id : Nat) : Option Team :=
  (s.teams.filter (fun t => t.id = id)).head?

def dbCreateTeam (s : State) (name code : String) : State × Team :=
  let newTeam : Team := ⟨s.currentTeamId, name, code⟩
  ({ s with
      teams := s.teams ++ [newTeam]
      currentTeamId := s.currentTeamId + 1 },
    newTeam)

def dbGetParticipant (s : State) (id : Nat) : Option Participant :=
  (s.participants.filter (fun p => p.id = id)).head?

def dbGetParticipantByCode (s : State) (code : String) : Option Participant :=
  (s.participants.filter (fun p => p.uniqueCode = code)).head?

/-- `where(eq(participants.fullName, name))`: exact string equality. -/
def dbGetParticipantByName (s : State) (name : String) : Option Participant :=
  (s.participants.filter (fun p => p.fullName = name)).head?

/-- `select from participants leftJoin teams on teamId = teams.id where
participants.id = id`, then `undefined` unless the row and its team side
are both present. -/
def dbGetParticipantWithTeam (s : State) (id : Nat) : Option ParticipantWithTeam :=
  let rows := (leftJoin s.participants s.teams (fun p => some p.teamId) (fun t => t.id)).filter
    (fun row => row.1.id = id)
  match rows.head? with
  | none => none
  | some (_, none) => none
  | some (p, some t) => some ⟨p, t⟩

def dbCreateParticipant (s : State) (fullName : String) (teamId : Nat)
    (uniqueCode : String) (profileImage : Option String) : State × Participant :=
  let newParticipant : Participant :=
    ⟨s.currentParticipantId, fullName, teamId, uniqueCode, profileImage⟩
  ({ s with
      participants := s.participants ++ [newParticipant]
      currentParticipantId := s.currentParticipantId + 1 },
    newParticipant)

/-- `update(participants).set({profileImage}).where(eq(id)).returning()`:
every row matching the `where` gets its `profileImage` column set; the
first returned row (or `undefined`) is the result. -/
def dbUpdateParticipantImage (s : State) (id : Nat) (imageUrl : String) :
    State × Option Participant :=
  let updatedRows := (s.participants.filter (fun p => p.id = id)).map
    (fun p => { p with profileImage := some imageUrl })
  ({ s with
      participants := s.participants.map
        (fun p => if p.id = id then { p with profileImage := some imageUrl } else p) },
    updatedRows.head?)

def dbGetPrograms (s : State) : List Program :=
  s.programs

def dbGetProgram (s : State) (id : Nat) : Option Program :=
  (s.programs.filter (fun g => g.id = id)).head?

def dbCreateProgram (s : State) (name type participationType : String)
    (description : Option String) : State × Program :=
  let newProgram : Program := ⟨s.currentProgramId, name, type, participationType, description⟩
  ({ s with
      programs := s.programs ++ [newProgram]
      currentProgramId := s.currentProgramId + 1 },
    newProgram)

def dbGetRegistrations (s : State) : List Registration :=
  s.registrations

def dbGetRegistrationsByParticipant (s : State) (participantId : Nat) : List Registration :=
  s.registrations.filter (fun r => r.participantId = participantId)

/-- One row of the triple left join of `getRegistrationsWithDetails`.  The
source maps it through non-null assertions (`row.participants!` etc.),
which are type-level casts with no runtime effect: a missing join side
stays absent in the value the endpoint returns, so the joined sides remain
`Option`s here. -/
structure DbRegistrationWithDetails where
  reg : Registration
  participant : Option Participant
  team : Option Team
  program : Option Program
deriving DecidableEq

def dbDetailJoinRows (s : State) :
    List (((Registration × Option Participant) × Option Team) × Option Program) :=
  leftJoin
    (leftJoin
      (leftJoin s.registrations s.participants (fun r => some r.participantId) (fun p => p.id))
      s.teams (fun rp => rp.2.map (fun p => p.teamId)) (fun t => t.id))
    s.programs (fun rpt => some rpt.1.1.programId) (fun g => g.id)

def dbGetRegistrationsWithDetails (s : State) : List DbRegistrationWithDetails :=
  (dbDetailJoinRows s).map (fun row => ⟨row.1.1.1, row.1.1.2, row.1.2, row.2⟩)

def dbGetRegistrationsByParticipantWithDetails (s : State) (participantId : Nat) :
    List DbRegistrationWithDetails :=
  ((dbDetailJoinRows s).filter (fun row => row.1.1.1.participantId = participantId)).map
    (fun row => ⟨row.1.1.1, row.1.1.2, row.1.2, row.2⟩)

def dbCreateRegistration (s : State) (participantId programId : Nat) (now : String) :
    State × Registration :=
  let newRegistration : Registration := ⟨s.currentRegistrationId, participantId, programId, now⟩
  ({ s with
      registrations := s.registrations ++ [newRegistration]
      currentRegistrationId := s.currentRegistrationId + 1 },
    newRegistration)

def dbDeleteRegistration (s : State) (id : Nat) : State × Bool :=
  ({ s with registrations := s.registrations.filter (fun r => r.id ≠ id) },
    s.registrations.any (fun r => r.id = id))

/-- `getStats` over the joined rows.  Accessing `r.program.type` on a row
whose program side is missing throws at runtime, modelled as `none`. -/
def dbGetStats (s : State) : Option Stats :=
  let all := dbGetRegistrationsWithDetails s
  if all.any (fun r => r.program = none) then none
  else
    some
      { totalRegistered := (all.map (fun r => r.reg.participantId)).dedup.length
        stagePrograms := (all.filter (fun r => r.program.map Program.type = some "stage")).length
        nonStagePrograms :=
          (all.filter (fun r => r.program.map Program.type = some "non-stage")).length
        totalPrograms := all.length }

def dbGenerateUniqueCode (s : State) (teamCode : String) : String :=
  generate teamCode (s.participants.map (fun p => p.uniqueCode))

/-- The single joined row produced for a registration when every join key
is matched against primary-key-unique rows: each join side is the first
(hence only) row with the matching id. -/
def dbRowOf (s : State) (r : Registration) : DbRegistrationWithDetails :=
  let pOpt := s.participants.find? (fun p => p.id = r.participantId)
  let tOpt :=
    match pOpt with
    | none => none
    | some p => s.teams.find? (fun t => t.id = p.teamId)
  let gOpt := s.programs.find? (fun g => g.id = r.programId)
  ⟨r, pOpt, tOpt, gOpt⟩

/-! ## Seed data -/

def seedTeams : List Team :=
  [⟨1, "QUDS Team", "QU"⟩, ⟨2, "BADR Team", "BA"⟩, ⟨3, "NOOR Team", "NO"⟩,
   ⟨4, "FAJR Team", "FA"⟩]

def seedPrograms : List Program :=
  [⟨1, "Group Dance Competition", "stage", "group",
      some "Competitive dance performance for groups"⟩,
   ⟨2, "Group Drama Performance", "stage", "group", some "Theatrical drama performance"⟩,
   ⟨3, "Group Musical Performance", "stage", "group", some "Musical ensemble performance"⟩,
   ⟨4, "Group Poetry Recitation", "stage", "group", some "Collective poetry recitation"⟩,
   ⟨5, "Solo Dance Performance", "stage", "individual", some "Individual dance performance"⟩,
   ⟨6, "Solo Singing", "stage", "individual", some "Individual vocal performance"⟩,
   ⟨7, "Monologue Performance", "stage", "individual", some "Solo dramatic performance"⟩,
   ⟨8, "Stand-up Comedy", "stage", "individual", some "Individual comedy performance"⟩,
   ⟨9, "Group Art Exhibition", "non-stage", "group", some "Collaborative art display"⟩,
   ⟨10, "Group Photography Contest", "non-stage", "group",
      some "Team photography competition"⟩,
   ⟨11, "Individual Painting", "non-stage", "individual", some "Solo painting competition"⟩,
   ⟨12, "Individual Photography", "non-stage", "individual",
      some "Individual photography contest"⟩,
   ⟨13, "Individual Calligraphy", "non-stage", "individual",
      some "Solo calligraphy competition"⟩,
   ⟨14, "Individual Creative Writing", "non-stage", "individual",
      some "Individual writing contest"⟩]

/-- The freshly seeded store: four teams and fourteen programs, no
participants and no registrations. -/
def initState : State :=
  { teams := seedTeams
    participants := []
    programs := seedPrograms
    registrations := []
    currentTeamId := 5
    currentParticipantId := 1
    currentProgramId := 15
    currentRegistrationId := 1 }

/-! ## Workflow operations (the HTTP routes)

Each handler is a function of the store state; handlers that write return
the new state with the response.  The `register/second` handler stamps
rows from the ambient clock, passed explicitly as `now`. -/

/-- Response of `POST /api/register/first`. -/
inductive IssueResult
  | validationError
  | duplicateName
  | invalidTeam
  | issued (participant : Option ParticipantWithTeam) (uniqueCode : String)
deriving DecidableEq

/-- Response of `GET /api/participant/:code`. -/
inductive LookupResult
  | invalidCode
  | found (participant : Option ParticipantWithTeam)
      (registrations : List RegistrationWithDetails)
deriving DecidableEq

/-- Response of `POST /api/register/second`. -/
inductive RegisterResult
  | validationError
  | invalidCode
  | registered (registrations : List RegistrationWithDetails) (newCount : Nat)
deriving DecidableEq

/-- Response of `DELETE /api/registration/:id`. -/
inductive DeleteResult
  | notFound
  | deleted
deriving DecidableEq

/-- `firstRegistrationSchema`: `fullName` length 2–100, `teamId ≥ 1`. -/
def firstRegistrationValid (fullName : String) (teamId : Nat) : Prop :=
  2 ≤ fullName.length ∧ fullName.length ≤ 100 ∧ 1 ≤ teamId

instance (fullName : String) (teamId : Nat) :
    Decidable (firstRegistrationValid fullName teamId) := by
  unfold firstRegistrationValid
  infer_instance

/-- `secondRegistrationSchema`: `uniqueCode` length ≥ 5, at least one
program id. -/
def secondRegistrationValid (uniqueCode : String) (programIds : List Nat) : Prop :=
  5 ≤ uniqueCode.length ∧ 1 ≤ programIds.length

instance (uniqueCode : String) (programIds : List Nat) :
    Decidable (secondRegistrationValid uniqueCode programIds) := by
  unfold secondRegistrationValid
  infer_instance

/-- `POST /api/register/first` over `MemStorage`: reject duplicate names
(case-insensitively), resolve the team, generate a fresh code from the
team prefix and the snapshot of every existing participant's code, and
create the participant. -/
def issueCode (fullName : String) (teamId : Nat) (s : State) : State × IssueResult :=
  if firstRegistrationValid fullName teamId then
    match memGetParticipantByName s fullName with
    | some _ => (s, .duplicateName)
    | none =>
      match memGetTeam s teamId with
      | none => (s, .invalidTeam)
      | some team =>
        let uniqueCode := memGenerateUniqueCode s team.code
        let created := memCreateParticipant s fullName teamId uniqueCode none
        (created.1, .issued (memGetParticipantWithTeam created.1 created.2.id) uniqueCode)
  else (s, .validationError)

/-- `GET /api/participant/:code` (read-only). -/
def lookupByCode (code : String) (s : State) : LookupResult :=
  match memGetParticipantByCode s code with
  | none => .invalidCode
  | some p =>
    .found (memGetParticipantWithTeam s p.id)
      (memGetRegistrationsByParticipantWithDetails s p.id)

/-- The `for (const programId of validatedData.programIds)` loop of
`POST /api/register/second`: create a registration for each requested id
absent from the snapshot `existingProgramIds`, collecting the created
rows in order. -/
def registerProgramsLoop (participantId : Nat) (existingProgramIds : List Nat)
    (now : String) : List Nat → State → State × List Registration
  | [], s => (s, [])
  | programId :: rest, s =>
    if programId ∈ existingProgramIds then
      registerProgramsLoop participantId existingProgramIds now rest s
    else
      let created := memCreateRegistration s participantId programId now
      let tail := registerProgramsLoop participantId existingProgramIds now rest created.1
      (tail.1, created.2 :: tail.2)

/-- `POST /api/register/second` over `MemStorage`: resolve the code,
optionally update the profile image, snapshot the participant's existing
program ids, create a row per requested id missing from the snapshot, and
answer with the participant's detailed registrations plus the count of
newly created rows. -/
def registerPrograms (uniqueCode : String) (programIds : List Nat)
    (profileImage : Option String) (now : String) (s : State) : State × RegisterResult :=
  if secondRegistrationValid uniqueCode programIds then
    match memGetParticipantByCode s uniqueCode with
    | none => (s, .invalidCode)
    | some participant =>
      let s1 :=
        match profileImage with
        | some url => (memUpdateParticipantImage s participant.id url).1
        | none => s
      let existingProgramIds :=
        (memGetRegistrationsByParticipant s1 participant.id).map (fun r => r.programId)
      let result := registerProgramsLoop participant.id existingProgramIds now programIds s1
      (result.1,
        .registered (memGetRegistrationsByParticipantWithDetails result.1 participant.id)
          result.2.length)
  else (s, .validationError)

/-- `DELETE /api/registration/:id`. -/
def deleteRegistrationRoute (id : Nat) (s : State) : State × DeleteResult :=
  let result := memDeleteRegistration s id
  (result.1, if result.2 then .deleted else .notFound)

/-- `POST /api/register/first` over `DatabaseStorage`: the same handler
backed by the relational store, whose name lookup is exact. -/
def dbIssueCode (fullName : String) (teamId : Nat) (s : State) : State × IssueResult :=
  if firstRegistrationValid fullName teamId then
    match dbGetParticipantByName s fullName with
    | some _ => (s, .duplicateName)
    | none =>
      match dbGetTeam s teamId with
      | none => (s, .invalidTeam)
      | some team =>
        let uniqueCode := dbGenerateUniqueCode s team.code
        let created := dbCreateParticipant s fullName teamId uniqueCode none
        (created.1, .issued (dbGetParticipantWithTeam created.1 created.2.id) uniqueCode)
  else (s, .validationError)

/-- The `newRegistrations.length` count reported by a successful
`POST /api/register/second` response. -/
def registerNewCount : RegisterResult → Option Nat
  | .registered _ n => some n
  | _ => none

/-! ## Reachability and invariants -/

/-- The codes held by the participants, in store order. -/
def codesOf (s : State) : List String :=
  s.participants.map (fun p => p.uniqueCode)

/-- The participant ids, in store order. -/
def participantIdsOf (s : State) : List Nat :=
  s.participants.map (fun p => p.id)

/-- The (participantId, programId) pairs of the registration rows. -/
def pairsOf (s : State) : List (Nat × Nat) :=
  s.registrations.map (fun r => (r.participantId, r.programId))

/-- States reachable from the seeded store by the workflow operations:
code issuance, program registration (with optional image update),
registration deletion, and direct profile-image update. -/
inductive Reachable : State → Prop
  | init : Reachable initState
  | issue (fullName : String) (teamId : Nat) {s : State} :
      Reachable s → Reachable (issueCode fullName teamId s).1
  | register (uniqueCode : String) (programIds : List Nat) (profileImage : Option String)
      (now : String) {s : State} :
      Reachable s → Reachable (registerPrograms uniqueCode programIds profileImage now s).1
  | delete (id : Nat) {s : State} :
      Reachable s → Reachable (deleteRegistrationRoute id s).1
  | image (id : Nat) (imageUrl : String) {s : State} :
      Reachable s → Reachable (memUpdateParticipantImage s id imageUrl).1

/-- Like `Reachable`, but every `RegisterPrograms` request presents a
duplicate-free list of program ids. -/
inductive ReachableD : State → Prop
  | init : ReachableD initState
  | issue (fullName : String) (teamId : Nat) {s : State} :
      ReachableD s → ReachableD (issueCode fullName teamId s).1
  | register (uniqueCode : String) (programIds : List Nat) (profileImage : Option String)
      (now : String) {s : State} : programIds.Nodup →
      ReachableD s → ReachableD (registerPrograms uniqueCode programIds profileImage now s).1
  | delete (id : Nat) {s : State} :
      ReachableD s → ReachableD (deleteRegistrationRoute id s).1
  | image (id : Nat) (imageUrl : String) {s : State} :
      ReachableD s → ReachableD (memUpdateParticipantImage s id imageUrl).1

/-- The participant bookkeeping invariant maintained by the workflow:
distinct codes, distinct participant ids, ids below the id counter. -/
structure Inv (s : State) : Prop where
  codes_nodup : (codesOf s).Nodup
  pids_nodup : (participantIdsOf s).Nodup
  pids_lt : ∀ p ∈ s.participants, p.id < s.currentParticipantId

/-- The per-registration resolver the `WithDetails` loops apply. -/
def memResolveDetails (s : State) (r : Registration) : Option RegistrationWithDetails :=
  match memGetParticipantWithTeam s r.participantId, memGetProgram s r.programId with
  | some pwt, some g => some ⟨r, pwt, g⟩
  | _, _ => none

/-- Every registration row's participant (with team) and program resolve. -/
def Resolved (s : State) : Prop :=
  ∀ r ∈ s.registrations,
    (memGetParticipantWithTeam s r.participantId).isSome ∧ (memGetProgram s r.programId).isSome

/-! ## Concrete states used by examples -/

/-- The store after `IssueCode("Alice", 1)` succeeds on the seeded store:
participant 1 "Alice" on the QUDS team with code "QU001". -/
def stateAlice : State :=
  (issueCode "Alice" 1 initState).1

/-- `stateAlice` after `RegisterPrograms("QU001", [g])`: one registration
row for program id `g`, which for `g` outside 1–14 resolves to no seeded
program. -/
def stateRegistered (g : Nat) : State :=
  (registerPrograms "QU001" [g] none "2024-01-01T00:00:00.000Z" stateAlice).1

/-- `stateAlice` after registering programs `[1, 2]`. -/
def stateAB : State :=
  (registerPrograms "QU001" [1, 2] none "2024-01-01T00:00:00.000Z" stateAlice).1

/-- `stateAB` after registering programs `[2, 3]`. -/
def stateABC : State :=
  (registerPrograms "QU001" [2, 3] none "2024-01-02T00:00:00.000Z" stateAB).1

/-! ## Properties of the decimal rendering and the code generator -/

theorem toNat_digitChar {d : Nat} (h : d < 10) : (digitChar d).toNat = 48 + d := by
  interval_cases d <;> rfl

theorem digitChar_ne_zero {d : Nat} (h0 : d ≠ 0) (h : d < 10) : digitChar d ≠ '0' := by
  interval_cases d
  · exact absurd rfl h0
  all_goals decide

theorem decimalVal_append_singleton (l : List Char) (c : Char) :
    decimalVal (l ++ [c]) = 10 * decimalVal l + (c.toNat - 48) := by
  simp [decimalVal, List.foldl_append]

theorem decimalVal_natToDecimalAux :
    ∀ fuel n, n ≤ fuel ∨ n < 10 → decimalVal (natToDecimalAux fuel n) = n := by
  intro fuel
  induction fuel with
  | zero =>
    intro n hn
    have h10 : n < 10 := by omega
    simp [natToDecimalAux, decimalVal, toNat_digitChar h10]
  | succ fuel ih =>
    intro n hn
    by_cases h10 : n < 10
    · simp [natToDecimalAux, if_pos h10, decimalVal, toNat_digitChar h10]
    · rw [natToDecimalAux, if_neg h10, decimalVal_append_singleton,
        ih (n / 10) (by omega), toNat_digitChar (Nat.mod_lt n (by omega))]
      omega

theorem decimalVal_natToDecimal (n : Nat) : decimalVal (natToDecimal n) = n :=
  decimalVal_natToDecimalAux n n (Or.inl le_rfl)

theorem natToDecimal_injective : Function.Injective natToDecimal := by
  intro a b h
  have := decimalVal_natToDecimal a
  rw [h, decimalVal_natToDecimal] at this
  omega

theorem natToDecimalAux_head :
    ∀ fuel n, 1 ≤ n → n ≤ fuel ∨ n < 10 →
      ∃ c t, natToDecimalAux fuel n = c :: t ∧ c ≠ '0' := by
  intro fuel
  induction fuel with
  | zero =>
    intro n h1 hn
    exact ⟨digitChar n, [], rfl, digitChar_ne_zero (by omega) (by omega)⟩
  | succ fuel ih =>
    intro n h1 hn
    by_cases h10 : n < 10
    · exact ⟨digitChar n, [], by simp [natToDecimalAux, if_pos h10],
        digitChar_ne_zero (by omega) h10⟩
    · obtain ⟨c, t, hct, hc⟩ := ih (n / 10) (by omega) (by omega)
      exact ⟨c, t ++ [digitChar (n % 10)], by
        rw [natToDecimalAux, if_neg h10, hct]; rfl, hc⟩

theorem natToDecimal_head (n : Nat) (h1 : 1 ≤ n) :
    ∃ c t, natToDecimal n = c :: t ∧ c ≠ '0' :=
  natToDecimalAux_head n n h1 (Or.inl le_rfl)

theorem dropWhile_zero_replicate_append (k : Nat) (l : List Char) :
    (List.replicate k '0' ++ l).dropWhile (fun c => c == '0') =
      l.dropWhile (fun c => c == '0') := by
  induction k with
  | zero => rfl
  | succ k ih => simp [List.replicate_succ, ih]

theorem dropWhile_padStart3 {l : List Char} {c : Char} {t : List Char}
    (hl : l = c :: t) (hc : c ≠ '0') :
    (padStart3 l).dropWhile (fun x => x == '0') = l := by
  rw [padStart3, dropWhile_zero_replicate_append, hl, List.dropWhile_cons_of_neg]
  simpa using hc

theorem padStart3_natToDecimal_injOn {a b : Nat} (ha : 1 ≤ a) (hb : 1 ≤ b)
    (h : padStart3 (natToDecimal a) = padStart3 (natToDecimal b)) : a = b := by
  obtain ⟨ca, ta, hca, hca0⟩ := natToDecimal_head a ha
  obtain ⟨cb, tb, hcb, hcb0⟩ := natToDecimal_head b hb
  have h2 : natToDecimal a = natToDecimal b := by
    have := congrArg (List.dropWhile (fun x => x == '0')) h
    rwa [dropWhile_padStart3 hca hca0, dropWhile_padStart3 hcb hcb0] at this
  exact natToDecimal_injective h2

theorem codeCandidate_injOn {p : String} {a b : Nat} (ha : 1 ≤ a) (hb : 1 ≤ b)
    (h : codeCandidate p a = codeCandidate p b) : a = b := by
  have hd := congrArg String.data h
  simp only [codeCandidate, String.data_append] at hd
  exact padStart3_natToDecimal_injOn ha hb (List.append_cancel_left hd)

theorem generateLoop_spec (p : String) (ex : List String) :
    ∀ fuel counter, (∃ k ≤ fuel, codeCandidate p (counter + k) ∉ ex) →
      ∃ m, counter ≤ m ∧ generateLoop p ex counter fuel = codeCandidate p m ∧
        codeCandidate p m ∉ ex ∧
        ∀ j, counter ≤ j → j < m → codeCandidate p j ∈ ex := by
  intro fuel
  induction fuel with
  | zero =>
    intro counter h
    obtain ⟨k, hk, hfree⟩ := h
    interval_cases k
    exact ⟨counter, le_rfl, rfl, by simpa using hfree, fun j h1 h2 => absurd h1 (by omega)⟩
  | succ fuel ih =>
    intro counter h
    by_cases hmem : codeCandidate p counter ∈ ex
    · have h' : ∃ k ≤ fuel, codeCandidate p (counter + 1 + k) ∉ ex := by
        obtain ⟨k, hk, hfree⟩ := h
        rcases Nat.eq_zero_or_pos k with rfl | hkpos
        · exact absurd (by simpa using hmem) (by simpa using hfree)
        · exact ⟨k - 1, by omega, by
            have : counter + 1 + (k - 1) = counter + k := by omega
            rwa [this]⟩
      obtain ⟨m, hm1, hm2, hm3, hm4⟩ := ih (counter + 1) h'
      refine ⟨m, by omega, ?_, hm3, ?_⟩
      · rw [generateLoop]
        simpa [hmem] using hm2
      · intro j h1 h2
        rcases Nat.eq_or_lt_of_le h1 with rfl | hlt
        · exact hmem
        · exact hm4 j hlt h2
    · exact ⟨counter, le_rfl, by rw [generateLoop]; simp [hmem],
        hmem, fun j h1 h2 => absurd h1 (by omega)⟩

theorem exists_free_candidate (p : String) (ex : List String) :
    ∃ k ≤ ex.length, codeCandidate p (1 + k) ∉ ex := by
  by_contra hcon
  push_neg at hcon
  have hsub : ((List.range (ex.length + 1)).map (fun k => codeCandidate p (1 + k))) ⊆ ex := by
    intro x hx
    obtain ⟨k, hk, rfl⟩ := List.mem_map.mp hx
    have hk' := List.mem_range.mp hk
    exact hcon k (by omega)
  have hinj : Function.Injective (fun k => codeCandidate p (1 + k)) := by
    intro a b hab
    have := codeCandidate_injOn (p := p) (by omega) (by omega) hab
    omega
  have hnodup := (List.nodup_range (ex.length + 1)).map hinj
  have hle := (hnodup.subperm hsub).length_le
  simp only [List.length_map, List.length_range] at hle
  omega

theorem generate_spec (p : String) (ex : List String) :
    ∃ m, 1 ≤ m ∧ generate p ex = codeCandidate p m ∧ codeCandidate p m ∉ ex ∧
      ∀ j, 1 ≤ j → j < m → codeCandidate p j ∈ ex := by
  obtain ⟨k, hk, hfree⟩ := exists_free_candidate p ex
  obtain ⟨m, hm1, hm2, hm3, hm4⟩ :=
    generateLoop_spec p ex (ex.length + 1) 1 ⟨k, by omega, hfree⟩
  exact ⟨m, hm1, hm2, hm3, hm4⟩

theorem generate_not_mem (p : String) (ex : List String) : generate p ex ∉ ex := by
  obtain ⟨m, _, hm2, hm3, _⟩ := generate_spec p ex
  rw [hm2]
  exact hm3

/-! ## List helpers -/

theorem head?_filter_eq_find? {α : Type} (p : α → Bool) :
    ∀ l : List α, (l.filter p).head? = l.find? p := by
  intro l
  induction l with
  | nil => rfl
  | cons a l ih =>
    by_cases h : p a <;> simp [List.filter_cons, List.find?_cons, h, ih]

theorem nodup_append_singleton {α : Type} {l : List α} {a : α}
    (h : l.Nodup) (ha : a ∉ l) : (l ++ [a]).Nodup := by
  simp [List.nodup_append, h, ha]

theorem find?_id_eq {l : List Participant} {i : Nat} {p : Participant}
    (h : l.find? (fun q => q.id = i) = some p) : p.id = i := by
  simpa using List.find?_some h

/-! ## The profile-image update -/

theorem map_eq_self {α : Type} {l : List α} {f : α → α} (h : ∀ a ∈ l, f a = a) :
    l.map f = l := by
  induction l with
  | nil => rfl
  | cons a rest ih => simp [h a (by simp), ih (fun a ha => h a (by simp [ha]))]

theorem setParticipantById_of_not_mem {l : List Participant} {i : Nat}
    (p' : Participant) (h : ∀ q ∈ l, q.id ≠ i) : setParticipantById l i p' = l := by
  unfold setParticipantById
  exact map_eq_self (fun q hq => if_neg (h q hq))

theorem setParticipantById_nodup {l : List Participant}
    (hnd : (l.map (fun p => p.id)).Nodup) {i : Nat} {p : Participant}
    (hfind : l.find? (fun q => q.id = i) = some p) (g : Participant → Participant) :
    setParticipantById l i (g p) = l.map (fun q => if q.id = i then g q else q) := by
  induction l with
  | nil => simp at hfind
  | cons q rest ih =>
    simp only [List.map_cons, List.nodup_cons] at hnd
    by_cases hq : q.id = i
    · rw [List.find?_cons_of_pos _ (by simpa using hq)] at hfind
      obtain rfl : p = q := by simpa using hfind.symm
      simp only [setParticipantById, List.map_cons, if_pos hq]
      have hrest : ∀ q' ∈ rest, q'.id ≠ i := by
        intro q' hq' hcon
        exact hnd.1 (by rw [hq, ← hcon]; exact List.mem_map_of_mem _ hq')
      have h1 : (rest.map fun q' => if q'.id = i then g q' else q') = rest :=
        map_eq_self (fun q' hq' => if_neg (hrest q' hq'))
      have h2 := setParticipantById_of_not_mem (g p) hrest
      rw [h1]
      simpa [setParticipantById] using h2
    · rw [List.find?_cons_of_neg _ (by simpa using hq)] at hfind
      simp only [setParticipantById, List.map_cons, if_neg hq] at ih ⊢
      rw [ih hnd.2 hfind]

theorem memUpdateParticipantImage_participants {s : State}
    (hnd : (participantIdsOf s).Nodup) (i : Nat) (url : String) :
    (memUpdateParticipantImage s i url).1.participants =
      s.participants.map
        (fun q => if q.id = i then { q with profileImage := some url } else q) := by
  unfold memUpdateParticipantImage memGetParticipant
  cases hfind : s.participants.find? (fun q => q.id = i) with
  | none =>
    have h : ∀ q ∈ s.participants, q.id ≠ i := by
      intro q hq
      simpa using List.find?_eq_none.mp hfind q hq
    simp only
    exact (map_eq_self (fun q hq => if_neg (h q hq))).symm
  | some p =>
    simpa using setParticipantById_nodup hnd hfind
      (fun q => { q with profileImage := some url })

theorem memUpdateParticipantImage_frame (s : State) (i : Nat) (url : String) :
    (memUpdateParticipantImage s i url).1.teams = s.teams ∧
    (memUpdateParticipantImage s i url).1.programs = s.programs ∧
    (memUpdateParticipantImage s i url).1.registrations = s.registrations ∧
    (memUpdateParticipantImage s i url).1.currentParticipantId = s.currentParticipantId := by
  unfold memUpdateParticipantImage memGetParticipant
  cases s.participants.find? (fun q => q.id = i) <;> simp

theorem participantIdsOf_memUpdateParticipantImage (s : State) (i : Nat) (url : String) :
    participantIdsOf (memUpdateParticipantImage s i url).1 = participantIdsOf s := by
  unfold memUpdateParticipantImage memGetParticipant
  cases hfind : s.participants.find? (fun q => q.id = i) with
  | none => rfl
  | some p =>
    simp only [participantIdsOf, setParticipantById, List.map_map]
    exact List.map_congr_left (fun q hq => by
      by_cases h : q.id = i <;> simp [h, find?_id_eq hfind])

theorem codesOf_memUpdateParticipantImage {s : State}
    (hnd : (participantIdsOf s).Nodup) (i : Nat) (url : String) :
    codesOf (memUpdateParticipantImage s i url).1 = codesOf s := by
  have h := memUpdateParticipantImage_participants hnd i url
  simp only [codesOf, h, List.map_map]
  exact List.map_congr_left (fun q hq => by by_cases hq' : q.id = i <;> simp [hq'])

/-! ## The program-registration loop -/

theorem registerProgramsLoop_frame (pid : Nat) (ex : List Nat) (now : String) :
    ∀ (pids : List Nat) (s : State),
      (registerProgramsLoop pid ex now pids s).1.participants = s.participants ∧
      (registerProgramsLoop pid ex now pids s).1.teams = s.teams ∧
      (registerProgramsLoop pid ex now pids s).1.programs = s.programs ∧
      (registerProgramsLoop pid ex now pids s).1.currentParticipantId =
        s.currentParticipantId := by
  intro pids
  induction pids with
  | nil => intro s; exact ⟨rfl, rfl, rfl, rfl⟩
  | cons g rest ih =>
    intro s
    by_cases hmem : g ∈ ex
    · simpa [registerProgramsLoop, hmem] using ih s
    · simpa [registerProgramsLoop, hmem, memCreateRegistration] using ih _

theorem registerProgramsLoop_registrations (pid : Nat) (ex : List Nat) (now : String) :
    ∀ (pids : List Nat) (s : State),
      (registerProgramsLoop pid ex now pids s).1.registrations =
        s.registrations ++ (registerProgramsLoop pid ex now pids s).2 := by
  intro pids
  induction pids with
  | nil => intro s; simp [registerProgramsLoop]
  | cons g rest ih =>
    intro s
    by_cases hmem : g ∈ ex
    · simpa [registerProgramsLoop, hmem] using ih s
    · simp only [registerProgramsLoop, if_neg hmem]
      rw [ih]
      simp [memCreateRegistration]

theorem registerProgramsLoop_created_programIds (pid : Nat) (ex : List Nat) (now : String) :
    ∀ (pids : List Nat) (s : State),
      ((registerProgramsLoop pid ex now pids s).2).map (fun r => r.programId) =
        pids.filter (fun g => !decide (g ∈ ex)) := by
  intro pids
  induction pids with
  | nil => intro s; simp [registerProgramsLoop]
  | cons g rest ih =>
    intro s
    by_cases hmem : g ∈ ex
    · simpa [registerProgramsLoop, hmem, List.filter_cons] using ih s
    · simp [registerProgramsLoop, hmem, List.filter_cons, memCreateRegistration, ih]

theorem registerProgramsLoop_created_participantId (pid : Nat) (ex : List Nat) (now : String) :
    ∀ (pids : List Nat) (s : State) (r : Registration),
      r ∈ (registerProgramsLoop pid ex now pids s).2 → r.participantId = pid := by
  intro pids
  induction pids with
  | nil => intro s r hr; simp [registerProgramsLoop] at hr
  | cons g rest ih =>
    intro s r hr
    by_cases hmem : g ∈ ex
    · rw [registerProgramsLoop, if_pos hmem] at hr
      exact ih s r hr
    · rw [registerProgramsLoop, if_neg hmem] at hr
      rcases List.mem_cons.mp hr with rfl | hr'
      · rfl
      · exact ih _ r hr'

/-! ## Invariant preservation -/

theorem inv_initState : Inv initState := by
  refine ⟨by decide, by decide, ?_⟩
  intro p hp
  simp [initState] at hp

theorem codesOf_memCreateParticipant (s : State) (n : String) (t : Nat) (c : String)
    (img : Option String) :
    codesOf (memCreateParticipant s n t c img).1 = codesOf s ++ [c] := by
  simp [codesOf, memCreateParticipant]

theorem inv_issueCode (fullName : String) (teamId : Nat) {s : State} (h : Inv s) :
    Inv (issueCode fullName teamId s).1 := by
  unfold issueCode
  split
  case isFalse => exact h
  case isTrue hv =>
    cases memGetParticipantByName s fullName with
    | some p => exact h
    | none =>
      cases memGetTeam s teamId with
      | none => exact h
      | some team =>
        simp only
        constructor
        · rw [codesOf_memCreateParticipant]
          exact nodup_append_singleton h.codes_nodup
            (by simpa [memGenerateUniqueCode, codesOf] using
              generate_not_mem team.code (s.participants.map (fun p => p.uniqueCode)))
        · simp only [participantIdsOf, memCreateParticipant, List.map_append]
          exact nodup_append_singleton h.pids_nodup (by
            intro hmem
            simp only [List.mem_map] at hmem
            obtain ⟨p, hp, hpid⟩ := hmem
            exact absurd hpid (Nat.ne_of_lt (h.pids_lt p hp)))
        · intro p hp
          simp only [memCreateParticipant, List.mem_append, List.mem_singleton] at hp
          rcases hp with hp | rfl
          · exact Nat.lt_succ_of_lt (h.pids_lt p hp)
          · exact Nat.lt_succ_self _

theorem inv_registerPrograms (uniqueCode : String) (programIds : List Nat)
    (profileImage : Option String) (now : String) {s : State} (h : Inv s) :
    Inv (registerPrograms uniqueCode programIds profileImage now s).1 := by
  unfold registerPrograms
  split
  case isFalse => exact h
  case isTrue hv =>
    cases memGetParticipantByCode s uniqueCode with
    | none => exact h
    | some participant =>
      simp only
      set s1 :=
        (match profileImage with
          | some url => (memUpdateParticipantImage s participant.id url).1
          | none => s) with hs1
      have hInv1 : Inv s1 ∧ s1.registrations = s.registrations := by
        rw [hs1]
        cases profileImage with
        | none => exact ⟨h, rfl⟩
        | some url =>
          refine ⟨⟨?_, ?_, ?_⟩, (memUpdateParticipantImage_frame s participant.id url).2.2.1⟩
          · rw [codesOf_memUpdateParticipantImage h.pids_nodup]
            exact h.codes_nodup
          · rw [participantIdsOf_memUpdateParticipantImage]
            exact h.pids_nodup
          · have hp := memUpdateParticipantImage_participants h.pids_nodup participant.id url
            have hc := (memUpdateParticipantImage_frame s participant.id url).2.2.2
            rw [hp, hc]
            intro p hp'
            obtain ⟨q, hq, rfl⟩ := List.mem_map.mp hp'
            by_cases hqi : q.id = participant.id <;>
              simpa [hqi] using h.pids_lt q hq
      obtain ⟨hInv1, _⟩ := hInv1
      have hframe := registerProgramsLoop_frame participant.id
        ((memGetRegistrationsByParticipant s1 participant.id).map (fun r => r.programId))
        now programIds s1
      exact ⟨by simpa [codesOf, hframe.1] using hInv1.codes_nodup,
        by simpa [participantIdsOf, hframe.1] using hInv1.pids_nodup,
        by rw [hframe.1, hframe.2.2.2]; exact hInv1.pids_lt⟩

theorem inv_deleteRegistrationRoute (i : Nat) {s : State} (h : Inv s) :
    Inv (deleteRegistrationRoute i s).1 := by
  exact ⟨h.codes_nodup, h.pids_nodup, h.pids_lt⟩

theorem inv_memUpdateParticipantImage (i : Nat) (url : String) {s : State} (h : Inv s) :
    Inv (memUpdateParticipantImage s i url).1 := by
  refine ⟨?_, ?_, ?_⟩
  · rw [codesOf_memUpdateParticipantImage h.pids_nodup]
    exact h.codes_nodup
  · rw [participantIdsOf_memUpdateParticipantImage]
    exact h.pids_nodup
  · have hp := memUpdateParticipantImage_participants h.pids_nodup i url
    have hc := (memUpdateParticipantImage_frame s i url).2.2.2
    rw [hp, hc]
    intro p hp'
    obtain ⟨q, hq, rfl⟩ := List.mem_map.mp hp'
    by_cases hqi : q.id = i <;> simpa [hqi] using h.pids_lt q hq

theorem reachable_inv {s : State} (h : Reachable s) : Inv s := by
  induction h with
  | init => exact inv_initState
  | issue fullName teamId _ ih => exact inv_issueCode fullName teamId ih
  | register uniqueCode programIds profileImage now _ ih =>
    exact inv_registerPrograms uniqueCode programIds profileImage now ih
  | delete i _ ih => exact inv_deleteRegistrationRoute i ih
  | image i url _ ih => exact inv_memUpdateParticipantImage i url ih

theorem registrations_issueCode (fullName : String) (teamId : Nat) (s : State) :
    (issueCode fullName teamId s).1.registrations = s.registrations := by
  unfold issueCode
  split
  case isFalse => rfl
  case isTrue =>
    cases memGetParticipantByName s fullName with
    | some p => rfl
    | none =>
      cases memGetTeam s teamId with
      | none => rfl
      | some team => simp [memCreateParticipant]

theorem registerPrograms_success {s : State} {code : String} {pids : List Nat}
    {img : Option String} {now : String} {participant : Participant}
    (hval : secondRegistrationValid code pids)
    (hfound : memGetParticipantByCode s code = some participant) :
    registerPrograms code pids img now s =
      ((registerProgramsLoop participant.id
          ((memGetRegistrationsByParticipant
            (match img with
              | some url => (memUpdateParticipantImage s participant.id url).1
              | none => s) participant.id).map (fun r => r.programId)) now pids
          (match img with
            | some url => (memUpdateParticipantImage s participant.id url).1
            | none => s)).1,
        .registered
          (memGetRegistrationsByParticipantWithDetails
            (registerProgramsLoop participant.id
              ((memGetRegistrationsByParticipant
                (match img with
                  | some url => (memUpdateParticipantImage s participant.id url).1
                  | none => s) participant.id).map (fun r => r.programId)) now pids
              (match img with
                | some url => (memUpdateParticipantImage s participant.id url).1
                | none => s)).1 participant.id)
          (registerProgramsLoop participant.id
            ((memGetRegistrationsByParticipant
              (match img with
                | some url => (memUpdateParticipantImage s participant.id url).1
                | none => s) participant.id).map (fun r => r.programId)) now pids
            (match img with
              | some url => (memUpdateParticipantImage s participant.id url).1
              | none => s)).2.length) := by
  unfold registerPrograms
  rw [if_pos hval, hfound]

theorem pairsOf_registerPrograms_nodup {s : State} {code : String} {pids : List Nat}
    {img : Option String} {now : String} (hnd : (pairsOf s).Nodup) (hpids : pids.Nodup) :
    (pairsOf (registerPrograms code pids img now s).1).Nodup := by
  unfold registerPrograms
  split
  case isFalse => exact hnd
  case isTrue hv =>
    cases hfound : memGetParticipantByCode s code with
    | none => exact hnd
    | some participant =>
      simp only
      set s1 :=
        (match img with
          | some url => (memUpdateParticipantImage s participant.id url).1
          | none => s) with hs1
      have hregs1 : s1.registrations = s.registrations := by
        rw [hs1]
        cases img with
        | none => rfl
        | some url => exact (memUpdateParticipantImage_frame s participant.id url).2.2.1
      set ex := (memGetRegistrationsByParticipant s1 participant.id).map
        (fun r => r.programId) with hex
      have hloopregs := registerProgramsLoop_registrations participant.id ex now pids s1
      have hpairs :
          pairsOf (registerProgramsLoop participant.id ex now pids s1).1 =
            pairsOf s1 ++
              (pids.filter (fun g => !decide (g ∈ ex))).map (fun g => (participant.id, g)) := by
        rw [pairsOf, hloopregs, List.map_append]
        congr 1
        have h1 : ((registerProgramsLoop participant.id ex now pids s1).2).map
            (fun r => (r.participantId, r.programId)) =
            ((registerProgramsLoop participant.id ex now pids s1).2).map
              (fun r => (participant.id, r.programId)) :=
          List.map_congr_left (fun r hr => by
            rw [registerProgramsLoop_created_participantId participant.id ex now pids s1 r hr])
        rw [h1, ← registerProgramsLoop_created_programIds participant.id ex now pids s1,
          List.map_map]
        rfl
      rw [hpairs, List.nodup_append]
      have hpairs1 : pairsOf s1 = pairsOf s := by rw [pairsOf, hregs1]; rfl
      refine ⟨by rwa [hpairs1], ?_, ?_⟩
      · exact (hpids.filter _).map (fun a b hab => by simpa using hab)
      · intro x hx hx'
        obtain ⟨g, hg, rfl⟩ := List.mem_map.mp hx'
        obtain ⟨hgmem, hgnot⟩ := List.mem_filter.mp hg
        rw [hpairs1, pairsOf] at hx
        obtain ⟨r, hr, hpair⟩ := List.mem_map.mp hx
        have h1 : r.participantId = participant.id := congrArg Prod.fst hpair
        have h2 : r.programId = g := congrArg Prod.snd hpair
        have : g ∈ ex := by
          rw [hex]
          refine List.mem_map.mpr ⟨r, ?_, h2⟩
          rw [memGetRegistrationsByParticipant, List.mem_filter, hregs1]
          exact ⟨hr, by simpa using h1⟩
        simp [this] at hgnot

theorem pairs_nodup_reachableD {s : State} (h : ReachableD s) : (pairsOf s).Nodup := by
  induction h with
  | init => decide
  | issue fullName teamId _ ih =>
    rw [pairsOf, registrations_issueCode]
    exact ih
  | register code pids img now hpids _ ih => exact pairsOf_registerPrograms_nodup ih hpids
  | delete i _ ih =>
    refine List.Nodup.sublist (List.Sublist.map _ (List.filter_sublist _)) ih
  | image i url _ ih =>
    rw [pairsOf, (memUpdateParticipantImage_frame _ i url).2.2.1]
    exact ih

/-! ## The detailed-registration reads -/

theorem memDetailsLoop_eq_filterMap (s : State) :
    ∀ l : List Registration, memDetailsLoop s l = l.filterMap (memResolveDetails s) := by
  intro l
  induction l with
  | nil => rfl
  | cons r rest ih =>
    rw [memDetailsLoop, List.filterMap_cons, memResolveDetails]
    cases memGetParticipantWithTeam s r.participantId with
    | none => exact ih
    | some pwt =>
      cases memGetProgram s r.programId with
      | none => exact ih
      | some g => rw [ih]

theorem memResolveDetails_reg {s : State} {r : Registration} {row : RegistrationWithDetails}
    (h : memResolveDetails s r = some row) : row.reg = r := by
  unfold memResolveDetails at h
  split at h
  · cases h
    rfl
  · simp at h

theorem memResolveDetails_of_some {s : State} {r : Registration}
    {pwt : ParticipantWithTeam} {g : Program}
    (h1 : memGetParticipantWithTeam s r.participantId = some pwt)
    (h2 : memGetProgram s r.programId = some g) :
    memResolveDetails s r = some ⟨r, pwt, g⟩ := by
  rw [memResolveDetails, h1, h2]

theorem memResolveDetails_congr {s s' : State} (hp : s'.participants = s.participants)
    (ht : s'.teams = s.teams) (hg : s'.programs = s.programs) :
    memResolveDetails s' = memResolveDetails s := by
  funext r
  simp only [memResolveDetails, memGetParticipantWithTeam, memGetParticipant, memGetTeam,
    memGetProgram, hp, ht, hg]

theorem filterMap_resolve_filter (s : State) (p : Registration → Bool) :
    ∀ l : List Registration,
      (l.filter p).filterMap (memResolveDetails s) =
        (l.filterMap (memResolveDetails s)).filter (fun row => p row.reg) := by
  intro l
  induction l with
  | nil => rfl
  | cons r rest ih =>
    by_cases hp : p r
    · rw [List.filter_cons_of_pos (by simpa using hp), List.filterMap_cons,
        List.filterMap_cons]
      cases hres : memResolveDetails s r with
      | none => exact ih
      | some row =>
        rw [List.filter_cons_of_pos (by simp [memResolveDetails_reg hres, hp]), ih]
    · rw [List.filter_cons_of_neg (by simpa using hp), List.filterMap_cons]
      cases hres : memResolveDetails s r with
      | none => exact ih
      | some row =>
        rw [List.filter_cons_of_neg (by simp [memResolveDetails_reg hres, hp]), ih]

theorem memGetRegistrationsByParticipantWithDetails_eq (s : State) (pid : Nat) :
    memGetRegistrationsByParticipantWithDetails s pid =
      (s.registrations.filter (fun r => r.participantId = pid)).filterMap
        (memResolveDetails s) := by
  rw [memGetRegistrationsByParticipantWithDetails, memDetailsLoop_eq_filterMap,
    memGetRegistrationsByParticipant]

theorem memGetRegistrationsWithDetails_eq (s : State) :
    memGetRegistrationsWithDetails s = s.registrations.filterMap (memResolveDetails s) :=
  memDetailsLoop_eq_filterMap s s.registrations

/-! ## Left joins -/

theorem joinExpand_ne_nil {α β : Type} (right : List β) (lkey : α → Option Nat)
    (rkey : β → Nat) (a : α) : joinExpand right lkey rkey a ≠ [] := by
  cases hlk : lkey a with
  | none => simp [joinExpand, hlk]
  | some k =>
    cases hf : right.filter (fun b => rkey b = k) with
    | nil => simp [joinExpand, hlk, hf]
    | cons b bs => simp [joinExpand, hlk, hf]

theorem joinExpand_fst {α β : Type} {right : List β} {lkey : α → Option Nat}
    {rkey : β → Nat} {a : α} :
    ∀ row ∈ joinExpand right lkey rkey a, row.1 = a := by
  intro row hrow
  cases hlk : lkey a with
  | none =>
    rw [joinExpand, hlk] at hrow
    simpa using congrArg Prod.fst (List.mem_singleton.mp hrow)
  | some k =>
    cases hf : right.filter (fun b => rkey b = k) with
    | nil =>
      simp only [joinExpand, hlk, hf, List.mem_singleton] at hrow
      simp [hrow]
    | cons b bs =>
      simp only [joinExpand, hlk, hf, List.mem_map] at hrow
      obtain ⟨b', _, rfl⟩ := hrow
      rfl

theorem joinExpand_head {α β : Type} (right : List β) (lkey : α → Option Nat)
    (rkey : β → Nat) (a : α) :
    (joinExpand right lkey rkey a).head? =
      some (a,
        match lkey a with
        | none => none
        | some k => (right.filter (fun b => rkey b = k)).head?) := by
  cases hlk : lkey a with
  | none => simp [joinExpand, hlk]
  | some k =>
    cases hf : right.filter (fun b => rkey b = k) with
    | nil => simp [joinExpand, hlk, hf]
    | cons b bs => simp [joinExpand, hlk, hf]

theorem head?_append_of_ne_nil {α : Type} {l : List α} (l' : List α) (h : l ≠ []) :
    (l ++ l').head? = l.head? := by
  cases l with
  | nil => exact absurd rfl h
  | cons a t => rfl

theorem leftJoin_filter_left {α β : Type} (right : List β) (lkey : α → Option Nat)
    (rkey : β → Nat) (q : α → Bool) :
    ∀ left : List α,
      (leftJoin left right lkey rkey).filter (fun row => q row.1) =
        leftJoin (left.filter q) right lkey rkey := by
  intro left
  induction left with
  | nil => rfl
  | cons a l ih =>
    rw [leftJoin, List.flatMap_cons, List.filter_append]
    by_cases hq : q a
    · have h1 : (joinExpand right lkey rkey a).filter (fun row => q row.1) =
          joinExpand right lkey rkey a :=
        List.filter_eq_self.mpr (fun row hrow => by simp [joinExpand_fst row hrow, hq])
      rw [h1, List.filter_cons_of_pos (by simpa using hq), leftJoin, List.flatMap_cons]
      exact congrArg _ ih
    · have h1 : (joinExpand right lkey rkey a).filter (fun row => q row.1) = [] := by
        rw [List.filter_eq_nil_iff]
        intro row hrow
        simp [joinExpand_fst row hrow, hq]
      rw [h1, List.filter_cons_of_neg (by simpa using hq), List.nil_append]
      exact ih

theorem filter_eq_find?_toList {β : Type} {rk : β → Nat} {r : List β}
    (hnd : (r.map rk).Nodup) (k : Nat) :
    r.filter (fun b => rk b = k) = (r.find? (fun b => rk b = k)).toList := by
  induction r with
  | nil => rfl
  | cons b rest ih =>
    simp only [List.map_cons, List.nodup_cons] at hnd
    by_cases h : rk b = k
    · rw [List.filter_cons_of_pos (by simpa using h),
        List.find?_cons_of_pos _ (by simpa using h)]
      have hrest : rest.filter (fun b' => rk b' = k) = [] := by
        rw [List.filter_eq_nil_iff]
        intro b' hb' hcon
        have hb'k : rk b' = k := by simpa using hcon
        exact absurd (by rw [h, ← hb'k]; exact List.mem_map_of_mem _ hb') hnd.1
      rw [hrest]
      rfl
    · rw [List.filter_cons_of_neg (by simpa using h),
        List.find?_cons_of_neg _ (by simpa using h), ih hnd.2]

theorem leftJoin_eq_map_find? {α β : Type} (right : List β) (lkey : α → Option Nat)
    (rkey : β → Nat) (hnd : (right.map rkey).Nodup) (left : List α) :
    leftJoin left right lkey rkey =
      left.map (fun a =>
        (a,
          match lkey a with
          | none => none
          | some k => right.find? (fun b => rkey b = k))) := by
  induction left with
  | nil => rfl
  | cons a l ih =>
    rw [leftJoin, List.flatMap_cons, List.map_cons]
    have hexp : joinExpand right lkey rkey a =
        [(a,
          match lkey a with
          | none => none
          | some k => right.find? (fun b => rkey b = k))] := by
      cases hlk : lkey a with
      | none => simp [joinExpand, hlk]
      | some k =>
        simp only [joinExpand, hlk]
        rw [filter_eq_find?_toList hnd]
        cases right.find? (fun b => rkey b = k) with
        | none => rfl
        | some b => rfl
    rw [hexp]
    exact congrArg _ ih

theorem leftJoin_exists_row {α β : Type} {right : List β} {lkey : α → Option Nat}
    {rkey : β → Nat} {left : List α} {a : α} (ha : a ∈ left) :
    ∃ row ∈ leftJoin left right lkey rkey, row.1 = a := by
  obtain ⟨row, hrow⟩ :=
    List.exists_mem_of_ne_nil _ (joinExpand_ne_nil right lkey rkey a)
  exact ⟨row, List.mem_flatMap.mpr ⟨a, ha, hrow⟩, joinExpand_fst row hrow⟩

/-! ## The two storage variants compared -/

theorem dbGetParticipantWithTeam_eq (s : State) (i : Nat) :
    dbGetParticipantWithTeam s i = memGetParticipantWithTeam s i := by
  unfold dbGetParticipantWithTeam memGetParticipantWithTeam memGetParticipant memGetTeam
  dsimp only
  rw [leftJoin_filter_left s.teams (fun p => some p.teamId) (fun t => t.id)
    (fun p => decide (p.id = i)) s.participants]
  cases hf : s.participants.filter (fun p => p.id = i) with
  | nil =>
    have hfind : s.participants.find? (fun p => p.id = i) = none := by
      rw [← head?_filter_eq_find?, hf]
      rfl
    rw [hfind]
    rfl
  | cons p rest =>
    have hfind : s.participants.find? (fun p => p.id = i) = some p := by
      rw [← head?_filter_eq_find?, hf]
      rfl
    rw [hfind, leftJoin, List.flatMap_cons,
      head?_append_of_ne_nil _ (joinExpand_ne_nil _ _ _ _), joinExpand_head]
    dsimp only
    cases hft : s.teams.filter (fun t => t.id = p.teamId) with
    | nil =>
      have htfind : s.teams.find? (fun t => t.id = p.teamId) = none := by
        rw [← head?_filter_eq_find?, hft]
        rfl
      rw [htfind]
      rfl
    | cons t ts =>
      have htfind : s.teams.find? (fun t => t.id = p.teamId) = some t := by
        rw [← head?_filter_eq_find?, hft]
        rfl
      rw [htfind]
      rfl

theorem dbGetRegistrationsWithDetails_eq_map (s : State)
    (hp : (s.participants.map (fun p => p.id)).Nodup)
    (ht : (s.teams.map (fun t => t.id)).Nodup)
    (hg : (s.programs.map (fun g => g.id)).Nodup) :
    dbGetRegistrationsWithDetails s = s.registrations.map (dbRowOf s) := by
  unfold dbGetRegistrationsWithDetails dbDetailJoinRows
  rw [leftJoin_eq_map_find? _ _ _ hp, leftJoin_eq_map_find? _ _ _ ht,
    leftJoin_eq_map_find? _ _ _ hg, List.map_map, List.map_map, List.map_map]
  apply List.map_congr_left
  intro r hr
  unfold dbRowOf
  cases hpf : s.participants.find? (fun p => p.id = r.participantId) with
  | none => simp [Function.comp, hpf]
  | some p => simp [Function.comp, hpf]

theorem dbGetRegistrationsByParticipantWithDetails_eq_map (s : State)
    (hp : (s.participants.map (fun p => p.id)).Nodup)
    (ht : (s.teams.map (fun t => t.id)).Nodup)
    (hg : (s.programs.map (fun g => g.id)).Nodup) (pid : Nat) :
    dbGetRegistrationsByParticipantWithDetails s pid =
      (s.registrations.filter (fun r => r.participantId = pid)).map (dbRowOf s) := by
  unfold dbGetRegistrationsByParticipantWithDetails dbDetailJoinRows
  rw [leftJoin_eq_map_find? _ _ _ hp, leftJoin_eq_map_find? _ _ _ ht,
    leftJoin_eq_map_find? _ _ _ hg, List.map_map, List.map_map, List.filter_map,
    List.map_map]
  apply List.map_congr_left
  intro r hr
  unfold dbRowOf
  cases hpf : s.participants.find? (fun p => p.id = r.participantId) with
  | none => simp [Function.comp, hpf]
  | some p => simp [Function.comp, hpf]

theorem dbGetRegistrationsWithDetails_covers (s : State) :
    ∀ r ∈ s.registrations, ∃ row ∈ dbGetRegistrationsWithDetails s, row.reg = r := by
  intro r hr
  obtain ⟨row1, hrow1, h1⟩ := @leftJoin_exists_row _ _ s.participants
    (fun r => some r.participantId) (fun p => p.id) _ _ hr
  obtain ⟨row2, hrow2, h2⟩ := @leftJoin_exists_row _ _ s.teams
    (fun rp => rp.2.map (fun p => p.teamId)) (fun t => t.id) _ _ hrow1
  obtain ⟨row3, hrow3, h3⟩ := @leftJoin_exists_row _ _ s.programs
    (fun rpt => some rpt.1.1.programId) (fun g => g.id) _ _ hrow2
  refine ⟨⟨row3.1.1.1, row3.1.1.2, row3.1.2, row3.2⟩,
    List.mem_map.mpr ⟨row3, hrow3, rfl⟩, ?_⟩
  simp [h3, h2, h1]

theorem memGetParticipantWithTeam_eq_some {s : State} {i : Nat} {pwt : ParticipantWithTeam}
    (h : memGetParticipantWithTeam s i = some pwt) :
    memGetParticipant s i = some pwt.part ∧ memGetTeam s pwt.part.teamId = some pwt.team := by
  unfold memGetParticipantWithTeam at h
  cases hp : memGetParticipant s i with
  | none => simp [hp] at h
  | some p =>
    simp only [hp] at h
    cases ht : memGetTeam s p.teamId with
    | none => simp [ht] at h
    | some t =>
      simp only [ht] at h
      cases h
      exact ⟨rfl, ht⟩

theorem dbRowOf_of_resolved {s : State} {r : Registration} {pwt : ParticipantWithTeam}
    {g : Program} (h1 : memGetParticipantWithTeam s r.participantId = some pwt)
    (h2 : memGetProgram s r.programId = some g) :
    dbRowOf s r = ⟨r, some pwt.part, some pwt.team, some g⟩ := by
  obtain ⟨hp, ht⟩ := memGetParticipantWithTeam_eq_some h1
  unfold dbRowOf
  rw [memGetParticipant] at hp
  rw [memGetTeam] at ht
  rw [memGetProgram] at h2
  simp [hp, ht, h2]

theorem filterMap_map_eq_map {α β γ : Type} {f : α → Option β} {pack : β → γ}
    {d : α → γ} : ∀ l : List α, (∀ a ∈ l, ∃ b, f a = some b ∧ d a = pack b) →
      (l.filterMap f).map pack = l.map d := by
  intro l
  induction l with
  | nil => intro _; rfl
  | cons a rest ih =>
    intro h
    obtain ⟨b, hb, hd⟩ := h a (by simp)
    rw [List.filterMap_cons, hb, List.map_cons, List.map_cons, hd]
    rw [ih (fun a ha => h a (by simp [ha]))]

/-- Packing a fully resolved in-memory detailed row as the relational
variant returns it. -/
theorem dbDetails_eq_mem_of_resolved (s : State)
    (hp : (s.participants.map (fun p => p.id)).Nodup)
    (ht : (s.teams.map (fun t => t.id)).Nodup)
    (hg : (s.programs.map (fun g => g.id)).Nodup) (hres : Resolved s) :
    dbGetRegistrationsWithDetails s =
      (memGetRegistrationsWithDetails s).map
        (fun row => ⟨row.reg, some row.participant.part, some row.participant.team,
          some row.program⟩) := by
  rw [dbGetRegistrationsWithDetails_eq_map s hp ht hg, memGetRegistrationsWithDetails_eq]
  refine (filterMap_map_eq_map s.registrations ?_).symm
  intro r hr
  obtain ⟨h1, h2⟩ := hres r hr
  obtain ⟨pwt, hpwt⟩ := Option.isSome_iff_exists.mp h1
  obtain ⟨g, hg2⟩ := Option.isSome_iff_exists.mp h2
  exact ⟨⟨r, pwt, g⟩, memResolveDetails_of_some hpwt hg2, dbRowOf_of_resolved hpwt hg2⟩

theorem dbDetailsByParticipant_eq_mem_of_resolved (s : State)
    (hp : (s.participants.map (fun p => p.id)).Nodup)
    (ht : (s.teams.map (fun t => t.id)).Nodup)
    (hg : (s.programs.map (fun g => g.id)).Nodup) (hres : Resolved s) (pid : Nat) :
    dbGetRegistrationsByParticipantWithDetails s pid =
      (memGetRegistrationsByParticipantWithDetails s pid).map
        (fun row => ⟨row.reg, some row.participant.part, some row.participant.team,
          some row.program⟩) := by
  rw [dbGetRegistrationsByParticipantWithDetails_eq_map s hp ht hg,
    memGetRegistrationsByParticipantWithDetails_eq]
  refine (filterMap_map_eq_map _ ?_).symm
  intro r hr
  obtain ⟨h1, h2⟩ := hres r (List.mem_of_mem_filter hr)
  obtain ⟨pwt, hpwt⟩ := Option.isSome_iff_exists.mp h1
  obtain ⟨g, hg2⟩ := Option.isSome_iff_exists.mp h2
  exact ⟨⟨r, pwt, g⟩, memResolveDetails_of_some hpwt hg2, dbRowOf_of_resolved hpwt hg2⟩

theorem dbGetTeam_eq (s : State) (i : Nat) : dbGetTeam s i = memGetTeam s i :=
  head?_filter_eq_find? _ _

theorem dbGetParticipant_eq (s : State) (i : Nat) :
    dbGetParticipant s i = memGetParticipant s i :=
  head?_filter_eq_find? _ _

theorem dbGetParticipantByCode_eq (s : State) (code : String) :
    dbGetParticipantByCode s code = memGetParticipantByCode s code :=
  head?_filter_eq_find? _ _

theorem dbGetParticipantByName_eq_find? (s : State) (name : String) :
    dbGetParticipantByName s name = s.participants.find? (fun p => p.fullName = name) :=
  head?_filter_eq_find? _ _

theorem dbGetProgram_eq (s : State) (i : Nat) : dbGetProgram s i = memGetProgram s i :=
  head?_filter_eq_find? _ _

theorem dbUpdateParticipantImage_eq {s : State}
    (hnd : (s.participants.map (fun p => p.id)).Nodup) (i : Nat) (url : String) :
    dbUpdateParticipantImage s i url = memUpdateParticipantImage s i url := by
  unfold dbUpdateParticipantImage memUpdateParticipantImage memGetParticipant
  cases hfind : s.participants.find? (fun p => p.id = i) with
  | none =>
    have hfil : s.participants.filter (fun p => p.id = i) = [] :=
      List.head?_eq_none_iff.mp (by rw [head?_filter_eq_find?, hfind])
    have hmap : (s.participants.map
        (fun p => if p.id = i then { p with profileImage := some url } else p)) =
        s.participants :=
      map_eq_self (fun q hq => if_neg (by simpa using List.find?_eq_none.mp hfind q hq))
    simp only [hfil, hmap, List.map_nil]
    rfl
  | some p =>
    have hhead : ((s.participants.filter (fun p => p.id = i)).map
        (fun p => { p with profileImage := some url })).head? =
        some { p with profileImage := some url } := by
      rw [List.head?_map, head?_filter_eq_find?, hfind]
      rfl
    have hset := setParticipantById_nodup hnd hfind
      (fun q => { q with profileImage := some url })
    simp only [hhead, hset]

theorem dbDeleteRegistration_eq (s : State) (i : Nat) :
    dbDeleteRegistration s i = memDeleteRegistration s i :=
  rfl

theorem dbCreateParticipant_eq (s : State) (n : String) (t : Nat) (c : String)
    (img : Option String) :
    dbCreateParticipant s n t c img = memCreateParticipant s n t c img :=
  rfl

theorem dbCreateRegistration_eq (s : State) (pid gid : Nat) (now : String) :
    dbCreateRegistration s pid gid now = memCreateRegistration s pid gid now :=
  rfl

theorem dbGenerateUniqueCode_eq (s : State) (teamCode : String) :
    dbGenerateUniqueCode s teamCode = memGenerateUniqueCode s teamCode :=
  rfl

theorem dbGetStats_eq_of_resolved (s : State)
    (hp : (s.participants.map (fun p => p.id)).Nodup)
    (ht : (s.teams.map (fun t => t.id)).Nodup)
    (hg : (s.programs.map (fun g => g.id)).Nodup) (hres : Resolved s) :
    dbGetStats s = some (memGetStats s) := by
  unfold dbGetStats
  rw [dbGetRegistrationsWithDetails_eq_map s hp ht hg]
  have hany : ((s.registrations.map (dbRowOf s)).any (fun r => r.program = none)) = false := by
    rw [List.any_eq_false]
    intro row hrow
    obtain ⟨r, hr, rfl⟩ := List.mem_map.mp hrow
    have h2 := (hres r hr).2
    rw [memGetProgram] at h2
    simp only [dbRowOf, decide_eq_true_eq]
    intro hcon
    rw [hcon] at h2
    simp at h2
  simp only [hany, Bool.false_eq_true, if_false]
  congr 1
  rw [memGetStats]
  congr 1
  · rw [List.map_map]
    rfl
  · rw [List.filter_map, List.length_map, List.countP_eq_length_filter]
    rfl
  · rw [List.filter_map, List.length_map, List.countP_eq_length_filter]
    rfl
  · rw [List.length_map]

/-! ## The claims -/

/-- C1: for every team prefix `p` and snapshot `S` of existing codes,
`generate(p, S)` returns `p` concatenated with the width-3 zero-padded
decimal counter, for the smallest counter `c ≥ 1` whose candidate is not
in `S`; in particular `generate("QU", {}) = "QU001"` and
`generate("QU", {"QU001"}) = "QU002"`. -/
theorem C1_generate_least_free_candidate :
    (∀ (p : String) (S : List String),
      ∃ c, 1 ≤ c ∧ generate p S = codeCandidate p c ∧ codeCandidate p c ∉ S ∧
        ∀ j, 1 ≤ j → j < c → codeCandidate p j ∈ S) ∧
    generate "QU" [] = "QU001" ∧ generate "QU" ["QU001"] = "QU002" :=
  ⟨generate_spec, by decide, by decide⟩

/-- Witness for C1 at the concrete prefix `"QU"` and snapshot `{"QU001"}`:
the generated code is not among the existing codes. -/
theorem C1_witness : generate "QU" ["QU001"] ∉ (["QU001"] : List String) := by
  obtain ⟨c, _, h2, h3, _⟩ := C1_generate_least_free_candidate.1 "QU" ["QU001"]
  rw [h2]
  exact h3

set_option maxRecDepth 4000 in
/-- C10: `generate` always escapes the retry loop — its result is outside
the finite existing-code snapshot — and once all 999 width-3 candidates
for "QU" are taken the 1000th candidate is returned with the padding
silently widened to "QU1000". -/
theorem C10_generate_terminates_and_widens :
    (∀ (p : String) (S : List String), generate p S ∉ S) ∧
    generate "QU" ((List.range 999).map (fun k => codeCandidate "QU" (k + 1))) =
      "QU1000" := by
  refine ⟨generate_not_mem, ?_⟩
  obtain ⟨m, hm1, hm2, hm3, hm4⟩ :=
    generate_spec "QU" ((List.range 999).map (fun k => codeCandidate "QU" (k + 1)))
  have hle : m ≤ 1000 := by
    by_contra hcon
    have h1000 := hm4 1000 (by omega) (by omega)
    obtain ⟨k, hk, hck⟩ := List.mem_map.mp h1000
    have := codeCandidate_injOn (p := "QU") (by omega) (by omega) hck.symm
    have := List.mem_range.mp hk
    omega
  have hge : ¬ m ≤ 999 := by
    intro hcon
    exact hm3 (List.mem_map.mpr ⟨m - 1, List.mem_range.mpr (by omega), by
      rw [show m - 1 + 1 = m from by omega]⟩)
  have hm : m = 1000 := by omega
  rw [hm2, hm]
  decide

/-- Witness for C10 at a concrete snapshot: the generated code is free. -/
theorem C10_witness : generate "BA" ["BA001"] ∉ (["BA001"] : List String) :=
  C10_generate_terminates_and_widens.1 "BA" ["BA001"]

/-- C2: in every state reachable by the workflow operations the
participants' `uniqueCode`s are pairwise distinct; `IssueCode` preserves
this because the generated code is checked against the codes of all
current participants across all teams before the participant is created. -/
theorem C2_unique_codes_invariant {s : State} (h : Reachable s) : (codesOf s).Nodup :=
  (reachable_inv h).codes_nodup

/-- Witness for C2: the invariant at the concrete reachable state with one
issued code. -/
theorem C2_witness : (codesOf (issueCode "Alice" 1 initState).1).Nodup :=
  C2_unique_codes_invariant (Reachable.issue "Alice" 1 Reachable.init)

/-- Counterexample to C3 as stated: the de-duplication snapshot is taken
once per request, so the reachable request `RegisterPrograms("QU001",
[5, 5])` creates two rows with the same `(participantId, programId)`
pair. -/
theorem C3_counterexample :
    Reachable (registerPrograms "QU001" [5, 5] none "2024-01-01T00:00:00.000Z" stateAlice).1 ∧
    pairsOf (registerPrograms "QU001" [5, 5] none "2024-01-01T00:00:00.000Z" stateAlice).1 =
      [(1, 5), (1, 5)] ∧
    ¬ (pairsOf
        (registerPrograms "QU001" [5, 5] none "2024-01-01T00:00:00.000Z" stateAlice).1).Nodup :=
  ⟨Reachable.register "QU001" [5, 5] none "2024-01-01T00:00:00.000Z"
      (Reachable.issue "Alice" 1 Reachable.init),
    by decide, by decide⟩

/-- C3 amended: in every state reachable by workflow operations whose
`RegisterPrograms` requests list no program id twice, the
`(participantId, programId)` pairs of the registration rows are pairwise
distinct — the per-request snapshot de-duplicates against earlier
requests, but not within one request. -/
theorem C3_no_duplicate_registration {s : State} (h : ReachableD s) : (pairsOf s).Nodup :=
  pairs_nodup_reachableD h

/-- Witness for the amended C3 at a concrete duplicate-free request. -/
theorem C3_witness :
    (pairsOf (registerPrograms "QU001" [5, 6] none "2024-01-01T00:00:00.000Z"
      stateAlice).1).Nodup :=
  C3_no_duplicate_registration
    (ReachableD.register "QU001" [5, 6] none "2024-01-01T00:00:00.000Z" (by decide)
      (ReachableD.issue "Alice" 1 ReachableD.init))

/-- Counterexample to C4 as stated: for the request `[7, 7]` on a
participant with no prior registrations the set difference `R − E` is
`{7}`, yet two rows are created and `newCount = 2` is reported. -/
theorem C4_counterexample :
    registerNewCount
      (registerPrograms "QU001" [7, 7] none "2024-01-01T00:00:00.000Z" stateAlice).2 =
      some 2 ∧
    ((registerPrograms "QU001" [7, 7] none "2024-01-01T00:00:00.000Z"
        stateAlice).1.registrations.filter (fun r => r.programId = 7)).length = 2 := by
  constructor
  · decide
  · decide

/-- C4 amended: for a duplicate-free request list `R` the call appends
exactly one row per id in `R − E` (in request order, all owned by the
participant), leaves the pre-existing rows untouched, and reports
`|R − E|` as `newCount`; registering `[1, 2]` then `[2, 3]` yields exactly
programs `{1, 2, 3}` with `newCount = 1` on the second call, and a call
whose ids are all registered creates no rows and does not error. -/
theorem C4_register_programs_set_difference :
    (∀ (s : State) (code : String) (R : List Nat) (now : String)
      (participant : Participant) (E : List Nat),
      secondRegistrationValid code R → R.Nodup →
      memGetParticipantByCode s code = some participant →
      E = (memGetRegistrationsByParticipant s participant.id).map (fun r => r.programId) →
      (registerPrograms code R none now s).1.registrations.length =
          s.registrations.length + (R.filter (fun g => !decide (g ∈ E))).length ∧
        (registerPrograms code R none now s).1.registrations.take
          s.registrations.length = s.registrations ∧
        ((registerPrograms code R none now s).1.registrations.drop
            s.registrations.length).map (fun r => r.programId) =
          R.filter (fun g => !decide (g ∈ E)) ∧
        (((registerPrograms code R none now s).1.registrations.drop
            s.registrations.length).map (fun r => r.programId)).Nodup ∧
        (∀ r ∈ (registerPrograms code R none now s).1.registrations.drop
            s.registrations.length, r.participantId = participant.id) ∧
        registerNewCount (registerPrograms code R none now s).2 =
          some (R.filter (fun g => !decide (g ∈ E))).length) ∧
    stateABC.registrations.map (fun r => r.programId) = [1, 2, 3] ∧
    registerNewCount
      (registerPrograms "QU001" [2, 3] none "2024-01-02T00:00:00.000Z" stateAB).2 =
      some 1 ∧
    (registerPrograms "QU001" [1, 2, 3] none "2024-01-03T00:00:00.000Z"
      stateABC).1.registrations = stateABC.registrations ∧
    registerNewCount
      (registerPrograms "QU001" [1, 2, 3] none "2024-01-03T00:00:00.000Z" stateABC).2 =
      some 0 := by
  refine ⟨?_, by decide, by decide, by decide, by decide⟩
  intro s code R now participant E hval hR hfound hE
  rw [registerPrograms_success hval hfound]
  dsimp only
  rw [← hE]
  have hreg := registerProgramsLoop_registrations participant.id E now R s
  have hids := registerProgramsLoop_created_programIds participant.id E now R s
  have hlen : (registerProgramsLoop participant.id E now R s).2.length =
      (R.filter (fun g => !decide (g ∈ E))).length := by
    have := congrArg List.length hids
    simpa [List.length_map] using this
  refine ⟨?_, ?_, ?_, ?_, ?_, ?_⟩
  · rw [hreg, List.length_append, hlen]
  · rw [hreg, List.take_left]
  · rw [hreg, List.drop_left]
    exact hids
  · rw [hreg, List.drop_left, hids]
    exact hR.filter _
  · rw [hreg, List.drop_left]
    exact registerProgramsLoop_created_participantId participant.id E now R s
  · rw [registerNewCount, hlen]

/-- Witness for the amended C4: one fresh program id on the concrete
one-participant store appends exactly one row. -/
theorem C4_witness :
    (registerPrograms "QU001" [5] none "t" stateAlice).1.registrations.length =
      stateAlice.registrations.length +
        (([5] : List Nat).filter
          (fun g => !decide (g ∈ (memGetRegistrationsByParticipant stateAlice
            (⟨1, "Alice", 1, "QU001", none⟩ : Participant).id).map
              (fun r => r.programId)))).length :=
  (C4_register_programs_set_difference.1 stateAlice "QU001" [5] "t"
    ⟨1, "Alice", 1, "QU001", none⟩ _ (by decide) (by decide) (by decide) rfl).1

/-- Counterexample to C5 as stated: the relational variant's duplicate
check is exact, so after "Alice" is registered, `IssueCode("ALICE", 1)`
against `DatabaseStorage` does not fail with `DuplicateName` — it creates
a second participant. -/
theorem C5_counterexample :
    memGetParticipantByName stateAlice "ALICE" =
      some ⟨1, "Alice", 1, "QU001", none⟩ ∧
    dbGetParticipantByName stateAlice "ALICE" = none ∧
    (dbIssueCode "ALICE" 1 stateAlice).2 =
      .issued (some ⟨⟨2, "ALICE", 1, "QU002", none⟩, ⟨1, "QUDS Team", "QU"⟩⟩) "QU002" ∧
    (dbIssueCode "ALICE" 1 stateAlice).1.participants.length = 2 := by
  refine ⟨by decide, by decide, by decide, by decide⟩

/-- C5 amended: against `MemStorage` a name equal to an existing
participant's up to letter case makes `IssueCode` fail with
`DuplicateName` and leave the store unchanged; against `DatabaseStorage`
the duplicate check compares names exactly, so only an exact duplicate is
detected. -/
theorem C5_duplicate_name_check :
    (∀ (s : State) (m : String) (teamId : Nat) (p : Participant),
      p ∈ s.participants → toLowerStr m = toLowerStr p.fullName →
      firstRegistrationValid m teamId →
      issueCode m teamId s = (s, .duplicateName)) ∧
    (∀ (s : State) (m : String),
      (dbGetParticipantByName s m).isSome ↔ ∃ p ∈ s.participants, p.fullName = m) := by
  constructor
  · intro s m teamId p hp hcase hval
    have hsome : (memGetParticipantByName s m).isSome := by
      rw [memGetParticipantByName, List.find?_isSome]
      exact ⟨p, hp, by simp [hcase]⟩
    obtain ⟨q, hq⟩ := Option.isSome_iff_exists.mp hsome
    rw [issueCode, if_pos hval, hq]
  · intro s m
    rw [dbGetParticipantByName_eq_find?, List.find?_isSome]
    simp

/-- Witness for the amended C5: issuing "ALICE" over the in-memory store
holding "Alice" fails with `DuplicateName`. -/
theorem C5_witness : issueCode "ALICE" 1 stateAlice = (stateAlice, .duplicateName) :=
  C5_duplicate_name_check.1 stateAlice "ALICE" 1 ⟨1, "Alice", 1, "QU001", none⟩
    (by decide) (by decide) (by decide)

theorem memResolveDetails_some_inv {s : State} {r : Registration}
    {row : RegistrationWithDetails} (h : memResolveDetails s r = some row) :
    memGetParticipantWithTeam s r.participantId = some row.participant ∧
      memGetProgram s r.programId = some row.program := by
  unfold memResolveDetails at h
  cases hpwt : memGetParticipantWithTeam s r.participantId with
  | none => simp [hpwt] at h
  | some pwt =>
    simp only [hpwt] at h
    cases hg : memGetProgram s r.programId with
    | none => simp [hg] at h
    | some g =>
      simp only [hg] at h
      cases h
      exact ⟨rfl, rfl⟩

/-- Counterexample to C6 as stated: the two storage variants disagree — the
name lookup is case-insensitive only in memory, and a registration with an
unresolvable program id is omitted by the in-memory joined read but kept
(with a null program) by the relational one. -/
theorem C6_counterexample :
    dbGetParticipantByName stateAlice "ALICE" ≠
      memGetParticipantByName stateAlice "ALICE" ∧
    (dbGetRegistrationsWithDetails (stateRegistered 99)).length = 1 ∧
    (memGetRegistrationsWithDetails (stateRegistered 99)).length = 0 :=
  ⟨by decide, by decide, by decide⟩

/-- C6 amended: the two storage variants return identical results for the
plain reads, the writes, and code generation on every state (the image
update on states whose participant ids are key-unique, as `Map`-backed
states always are); `getParticipantByName` is exact in the relational
variant but case-insensitive in memory, and the joined reads and stats
agree on key-unique states whose foreign keys all resolve, with the
relational rows carrying their join sides as options. -/
theorem C6_storage_variants_agree :
    (∀ s, dbGetTeams s = memGetTeams s) ∧
    (∀ s i, dbGetTeam s i = memGetTeam s i) ∧
    (∀ s i, dbGetParticipant s i = memGetParticipant s i) ∧
    (∀ s c, dbGetParticipantByCode s c = memGetParticipantByCode s c) ∧
    (∀ s i, dbGetParticipantWithTeam s i = memGetParticipantWithTeam s i) ∧
    (∀ s, dbGetPrograms s = memGetPrograms s) ∧
    (∀ s i, dbGetProgram s i = memGetProgram s i) ∧
    (∀ s, dbGetRegistrations s = memGetRegistrations s) ∧
    (∀ s pid, dbGetRegistrationsByParticipant s pid =
      memGetRegistrationsByParticipant s pid) ∧
    (∀ s n t c img, dbCreateParticipant s n t c img = memCreateParticipant s n t c img) ∧
    (∀ s pid gid now, dbCreateRegistration s pid gid now =
      memCreateRegistration s pid gid now) ∧
    (∀ s i, dbDeleteRegistration s i = memDeleteRegistration s i) ∧
    (∀ (s : State) (i : Nat) (url : String),
      (s.participants.map (fun p => p.id)).Nodup →
      dbUpdateParticipantImage s i url = memUpdateParticipantImage s i url) ∧
    (∀ s tc, dbGenerateUniqueCode s tc = memGenerateUniqueCode s tc) ∧
    (∀ s : State, (s.participants.map (fun p => p.id)).Nodup →
      (s.teams.map (fun t => t.id)).Nodup → (s.programs.map (fun g => g.id)).Nodup →
      Resolved s →
      dbGetRegistrationsWithDetails s =
        (memGetRegistrationsWithDetails s).map
          (fun row => ⟨row.reg, some row.participant.part, some row.participant.team,
            some row.program⟩) ∧
      (∀ pid, dbGetRegistrationsByParticipantWithDetails s pid =
        (memGetRegistrationsByParticipantWithDetails s pid).map
          (fun row => ⟨row.reg, some row.participant.part, some row.participant.team,
            some row.program⟩)) ∧
      dbGetStats s = some (memGetStats s)) :=
  ⟨fun _ => rfl, dbGetTeam_eq, dbGetParticipant_eq, dbGetParticipantByCode_eq,
    dbGetParticipantWithTeam_eq, fun _ => rfl, dbGetProgram_eq, fun _ => rfl,
    fun _ _ => rfl, dbCreateParticipant_eq, dbCreateRegistration_eq,
    dbDeleteRegistration_eq, fun _ i url hnd => dbUpdateParticipantImage_eq hnd i url,
    dbGenerateUniqueCode_eq,
    fun s hp ht hg hres =>
      ⟨dbDetails_eq_mem_of_resolved s hp ht hg hres,
        dbDetailsByParticipant_eq_mem_of_resolved s hp ht hg hres,
        dbGetStats_eq_of_resolved s hp ht hg hres⟩⟩

/-- Witness for the amended C6: the image update agrees on the concrete
one-participant store. -/
theorem C6_witness :
    dbUpdateParticipantImage stateAlice 1 "/uploads/a.png" =
      memUpdateParticipantImage stateAlice 1 "/uploads/a.png" :=
  C6_storage_variants_agree.2.2.2.2.2.2.2.2.2.2.2.2.1 stateAlice 1 "/uploads/a.png"
    (by decide)

/-- Counterexample to C7 as stated: a registration row whose program id
resolves to no program is omitted by `MemStorage`'s joined read but
returned (with a null program side) by `DatabaseStorage`'s. -/
theorem C7_counterexample :
    (stateRegistered 98).registrations.length = 1 ∧
    memGetRegistrationsWithDetails (stateRegistered 98) = [] ∧
    (dbGetRegistrationsWithDetails (stateRegistered 98)).map
      (fun row => (row.reg.programId, row.program)) = [(98, none)] :=
  ⟨by decide, by decide, by decide⟩

/-- C7 amended: in `MemStorage` the joined reads return exactly the
registrations whose participant, team and program all resolve — rows with
an unresolvable foreign key are omitted without error — while
`DatabaseStorage`'s left join keeps a row for every registration, missing
sides included. -/
theorem C7_orphan_rows :
    (∀ (s : State) (row : RegistrationWithDetails),
      row ∈ memGetRegistrationsWithDetails s ↔
        row.reg ∈ s.registrations ∧
        memGetParticipantWithTeam s row.reg.participantId = some row.participant ∧
        memGetProgram s row.reg.programId = some row.program) ∧
    (∀ (s : State) (pid : Nat) (row : RegistrationWithDetails),
      row ∈ memGetRegistrationsByParticipantWithDetails s pid ↔
        row.reg ∈ s.registrations ∧ row.reg.participantId = pid ∧
        memGetParticipantWithTeam s row.reg.participantId = some row.participant ∧
        memGetProgram s row.reg.programId = some row.program) ∧
    (∀ (s : State) (r : Registration), r ∈ s.registrations →
      ∃ row ∈ dbGetRegistrationsWithDetails s, row.reg = r) := by
  refine ⟨?_, ?_, dbGetRegistrationsWithDetails_covers⟩
  · intro s row
    rw [memGetRegistrationsWithDetails_eq, List.mem_filterMap]
    constructor
    · rintro ⟨r, hr, hres⟩
      have hreg := memResolveDetails_reg hres
      obtain ⟨h1, h2⟩ := memResolveDetails_some_inv hres
      rw [hreg]
      exact ⟨hr, h1, h2⟩
    · rintro ⟨hr, h1, h2⟩
      exact ⟨row.reg, hr, memResolveDetails_of_some h1 h2⟩
  · intro s pid row
    rw [memGetRegistrationsByParticipantWithDetails_eq, List.mem_filterMap]
    constructor
    · rintro ⟨r, hr, hres⟩
      have hreg := memResolveDetails_reg hres
      obtain ⟨hrmem, hrpid⟩ := List.mem_filter.mp hr
      obtain ⟨h1, h2⟩ := memResolveDetails_some_inv hres
      rw [hreg]
      exact ⟨hrmem, by simpa using hrpid, h1, h2⟩
    · rintro ⟨hr, hpid, h1, h2⟩
      exact ⟨row.reg, List.mem_filter.mpr ⟨hr, by simpa using hpid⟩,
        memResolveDetails_of_some h1 h2⟩

/-- Witness for the amended C7: the fully resolvable registration of the
concrete store appears in the in-memory joined read. -/
theorem C7_witness :
    (⟨⟨1, 1, 5, "2024-01-01T00:00:00.000Z"⟩,
      ⟨⟨1, "Alice", 1, "QU001", none⟩, ⟨1, "QUDS Team", "QU"⟩⟩,
      ⟨5, "Solo Dance Performance", "stage", "individual",
        some "Individual dance performance"⟩⟩ : RegistrationWithDetails) ∈
      memGetRegistrationsWithDetails (stateRegistered 5) :=
  (C7_orphan_rows.1 (stateRegistered 5) _).mpr ⟨by decide, by decide, by decide⟩

/-- Counterexample to C8 as stated: for a known code whose participant
registered an id that resolves to no program, the lookup succeeds but its
registration list omits that row, so it is not the participant's full
registration set. -/
theorem C8_counterexample :
    lookupByCode "QU001" (stateRegistered 97) =
      .found (some ⟨⟨1, "Alice", 1, "QU001", none⟩, ⟨1, "QUDS Team", "QU"⟩⟩) [] ∧
    (memGetRegistrationsByParticipant (stateRegistered 97) 1).length = 1 :=
  ⟨by decide, by decide⟩

/-- C8 amended: `LookupByCode` is a pure read; an unknown code always
yields `InvalidCode` with no data, and a known code yields that
participant joined with their team and their detailed registrations —
which form the full registration set whenever the participant resolves
and every registered program id does. -/
theorem C8_lookup_by_code :
    (∀ (s : State) (c : String),
      (∀ p ∈ s.participants, p.uniqueCode ≠ c) → lookupByCode c s = .invalidCode) ∧
    (∀ (s : State) (c : String) (p : Participant),
      memGetParticipantByCode s c = some p →
      lookupByCode c s =
        .found (memGetParticipantWithTeam s p.id)
          (memGetRegistrationsByParticipantWithDetails s p.id) ∧
      ((memGetParticipantWithTeam s p.id).isSome →
        (∀ r ∈ s.registrations, r.participantId = p.id →
          (memGetProgram s r.programId).isSome) →
        (memGetRegistrationsByParticipantWithDetails s p.id).map (fun row => row.reg) =
          s.registrations.filter (fun r => r.participantId = p.id))) := by
  constructor
  · intro s c h
    have hnone : memGetParticipantByCode s c = none := by
      rw [memGetParticipantByCode]
      exact List.find?_eq_none.mpr (fun p hp => by simpa using h p hp)
    rw [lookupByCode, hnone]
  · intro s c p hfound
    refine ⟨by rw [lookupByCode, hfound], ?_⟩
    intro hpwt hprog
    obtain ⟨pwt, hpwt'⟩ := Option.isSome_iff_exists.mp hpwt
    rw [memGetRegistrationsByParticipantWithDetails_eq]
    have h := @filterMap_map_eq_map _ _ _ (memResolveDetails s)
      (fun row => row.reg) (fun r => r)
      (s.registrations.filter (fun r => r.participantId = p.id)) ?_
    · rw [h]
      exact map_eq_self (fun _ _ => rfl)
    · intro r hr
      obtain ⟨hrmem, hrpid⟩ := List.mem_filter.mp hr
      have hrpid' : r.participantId = p.id := by simpa using hrpid
      obtain ⟨g, hgr⟩ := Option.isSome_iff_exists.mp (hprog r hrmem hrpid')
      exact ⟨⟨r, pwt, g⟩, memResolveDetails_of_some (by rw [hrpid']; exact hpwt') hgr,
        rfl⟩

/-- Witness for the amended C8: an unknown code on the seeded store fails
with `InvalidCode`. -/
theorem C8_witness : lookupByCode "ZZ999" initState = .invalidCode :=
  C8_lookup_by_code.1 initState "ZZ999" (by decide)

/-- C9: deleting a present registration (ids being key-unique, as `Map`
states are) answers success, removes exactly that row, leaves teams,
participants and programs untouched, and a subsequent lookup by the
owner's code still finds the same participant with team, with exactly the
previous detailed registrations minus the deleted row. -/
theorem C9_delete_registration_frame :
    ∀ (s : State) (r : Registration),
      (s.registrations.map (fun x => x.id)).Nodup → r ∈ s.registrations →
      (deleteRegistrationRoute r.id s).2 = .deleted ∧
      (∃ l1 l2, s.registrations = l1 ++ r :: l2 ∧
        (deleteRegistrationRoute r.id s).1.registrations = l1 ++ l2) ∧
      (deleteRegistrationRoute r.id s).1.participants = s.participants ∧
      (deleteRegistrationRoute r.id s).1.teams = s.teams ∧
      (deleteRegistrationRoute r.id s).1.programs = s.programs ∧
      (∀ p : Participant, memGetParticipantByCode s p.uniqueCode = some p →
        r.participantId = p.id →
        lookupByCode p.uniqueCode (deleteRegistrationRoute r.id s).1 =
          .found (memGetParticipantWithTeam s p.id)
            ((memGetRegistrationsByParticipantWithDetails s p.id).filter
              (fun row => row.reg.id ≠ r.id))) := by
  intro s r hnd hr
  have hdel : (memDeleteRegistration s r.id).2 = true := by
    rw [memDeleteRegistration]
    exact List.any_eq_true.mpr ⟨r, hr, by simp⟩
  obtain ⟨l1, l2, hsplit⟩ := List.append_of_mem hr
  have hnd' := hnd
  rw [hsplit, List.map_append, List.map_cons, List.nodup_append] at hnd'
  obtain ⟨hnd1, hnd2, hdisj⟩ := hnd'
  have hl1 : ∀ x ∈ l1, x.id ≠ r.id := by
    intro x hx hcon
    exact hdisj (hcon ▸ List.mem_map_of_mem _ hx) (List.mem_cons_self _ _)
  have hl2 : ∀ x ∈ l2, x.id ≠ r.id := by
    intro x hx hcon
    exact (List.nodup_cons.mp hnd2).1 (hcon ▸ List.mem_map_of_mem _ hx)
  have hfilter : s.registrations.filter (fun x => x.id ≠ r.id) = l1 ++ l2 := by
    rw [hsplit, List.filter_append, List.filter_cons_of_neg (by simp),
      List.filter_eq_self.mpr (fun x hx => by simpa using hl1 x hx),
      List.filter_eq_self.mpr (fun x hx => by simpa using hl2 x hx)]
  refine ⟨by rw [deleteRegistrationRoute, hdel]; rfl,
    ⟨l1, l2, hsplit, hfilter⟩, rfl, rfl, rfl, ?_⟩
  intro p hbyCode hpid
  have hbyCode' : memGetParticipantByCode (deleteRegistrationRoute r.id s).1
      p.uniqueCode = some p := hbyCode
  have hpwt : memGetParticipantWithTeam (deleteRegistrationRoute r.id s).1 p.id =
      memGetParticipantWithTeam s p.id := rfl
  have hdet : memGetRegistrationsByParticipantWithDetails
      (deleteRegistrationRoute r.id s).1 p.id =
      (memGetRegistrationsByParticipantWithDetails s p.id).filter
        (fun row => row.reg.id ≠ r.id) := by
    rw [memGetRegistrationsByParticipantWithDetails_eq,
      memGetRegistrationsByParticipantWithDetails_eq]
    have hcongr : memResolveDetails (deleteRegistrationRoute r.id s).1 =
        memResolveDetails s := memResolveDetails_congr rfl rfl rfl
    have hregs : (deleteRegistrationRoute r.id s).1.registrations =
        s.registrations.filter (fun x => x.id ≠ r.id) := rfl
    rw [hcongr, hregs, List.filter_filter, List.filter_congr
      (fun x _ => Bool.and_comm _ _), ← List.filter_filter,
      filterMap_resolve_filter]
  rw [lookupByCode, hbyCode']
  simp only [hpwt, hdet]

/-- Witness for C9 at the concrete store with one registration. -/
theorem C9_witness :
    (deleteRegistrationRoute
      (⟨1, 1, 5, "2024-01-01T00:00:00.000Z"⟩ : Registration).id (stateRegistered 5)).2 =
      .deleted :=
  (C9_delete_registration_frame (stateRegistered 5) ⟨1, 1, 5, "2024-01-01T00:00:00.000Z"⟩
    (by decide) (by decide)).1

end FestivalRegistry
